import Mathlib

/-!
Shallow embedding of the project-scheduling core of the GenAI repository.

The embedded code lives in `src/ai_collab_optimizer/app.py`
(`CriticalPathAnalyzer`: `_build_dependency_graph`, `forward_pass`,
`backward_pass`, `get_critical_path`, `get_minimum_viable_paths`,
`identify_bottlenecks`, `get_project_duration`) and in
`src/ai_collab_optimizer3/app.py` (`analyze_workflow`).

Modelling conventions:
  * A dependency graph is a `List TaskNode` — networkx iterates nodes in
    insertion order, which is the list order.  Edges run `dep -> task` and
    are recovered from each node's dependency list (`effDeps`).
  * Node attribute dictionaries become a function `String → Sched`.
  * The float sentinel `inf` used for uninitialized `late_start` /
    `late_finish` becomes `none : Option Int`; all arithmetic on schedule
    values in the source is integer-valued, so `Int` is exact.
  * `nx.topological_sort` succeeds iff the graph is acyclic; the passes are
    modelled as folds over a list given in topological order, and theorems
    about acyclic graphs quantify over lists that are topologically sorted
    (`TopoOK`), which covers whichever order networkx picks.  The top-level
    entry `analyzeCPA` computes a Kahn topological order itself; on a cyclic
    graph both passes return early and every node keeps its initial values.
  * Python's stable `sorted` is modelled by `List.insertionSort`, which is
    also stable.
-/

namespace GenAI

/-- A node of the dependency graph built by
`CriticalPathAnalyzer._build_dependency_graph`: id, display name, integer
duration, resource label, and the list of dependency ids (raw; the
comma/semicolon splitting of dependency strings happens upstream). -/
structure TaskNode where
  id : String
  name : String
  duration : Int
  resource : String
  deps : List String
deriving Repr, DecidableEq

/-- Schedule attributes attached to each node.  `late_start`, `late_finish`
start as the sentinel `inf` (`none`), `slack` starts as `0`; `is_critical`
is tested in the source as `abs(slack) < 1e-6`, which on the integer-valued
slack is exactly `slack = 0`. -/
structure Sched where
  early_start : Int
  early_finish : Int
  late_start : Option Int
  late_finish : Option Int
  slack : Option Int
  is_critical : Bool
deriving Repr, DecidableEq

def initSched : Sched :=
  { early_start := 0, early_finish := 0, late_start := none,
    late_finish := none, slack := some 0, is_critical := false }

/-- The node-attribute store (a Python dict keyed by node id). -/
abbrev SMap := String → Sched

def initState : SMap := fun _ => initSched

def ids (g : List TaskNode) : List String := g.map (·.id)

/-- Effective dependency ids of a task: an edge `dep -> task` is added only
when both ids are nodes and they differ (no self-loops); the graph stores
edges as a set, so duplicates collapse. -/
def effDeps (g : List TaskNode) (t : TaskNode) : List String :=
  (t.deps.filter (fun d => d != t.id && (ids g).contains d)).dedup

/-- Successor ids of node `i`: all nodes that list `i` as an effective
dependency, in node-insertion order (which is how networkx stores the
adjacency built by the edge-insertion loop). -/
def succIds (g : List TaskNode) (i : String) : List String :=
  ((g.filter (fun u => (effDeps g u).contains i)).map (·.id))

/-- Python `max` over a list known to be non-empty (`max(...)` in the
source is only applied to non-empty generators); `0` on `[]` is arbitrary. -/
def listMaxI : List Int → Int
  | [] => 0
  | x :: xs => xs.foldl max x

/-- `min` on `Option Int` where `none` is `+inf`. -/
def emin : Option Int → Option Int → Option Int
  | none, b => b
  | some x, none => some x
  | some x, some y => some (min x y)

/-- Python `min` over a list of possibly-infinite values. -/
def listMinE : List (Option Int) → Option Int
  | [] => none
  | x :: xs => xs.foldl emin x

/-- Subtraction where the left operand may be `inf` (`inf - d = inf`). -/
def esub : Option Int → Int → Option Int
  | none, _ => none
  | some x, d => some (x - d)

/-- One iteration of the forward-pass loop body at node `t`
(`forward_pass`, app.py lines 113-126). -/
def fwdStep (g : List TaskNode) (s : SMap) (t : TaskNode) : SMap :=
  let es : Int :=
    if (effDeps g t).isEmpty then 0
    else listMaxI ((effDeps g t).map (fun p => (s p).early_finish))
  fun j =>
    if j = t.id then
      { s j with early_start := es, early_finish := es + t.duration }
    else s j

/-- `forward_pass` on a graph given in topological order. -/
def forwardPass (g : List TaskNode) (s : SMap) : SMap :=
  g.foldl (fwdStep g) s

/-- `max(early_finish)` over all nodes (`project_end` in `backward_pass`,
and the body of `get_project_duration`). -/
def projectEnd (g : List TaskNode) (s : SMap) : Int :=
  listMaxI (g.map (fun t => (s t.id).early_finish))

/-- The re-initialization loop of `backward_pass`: every node gets
`late_finish = late_start = inf`. -/
def clearLate (g : List TaskNode) (s : SMap) : SMap :=
  fun j =>
    if (ids g).contains j then
      { s j with late_start := none, late_finish := none }
    else s j

/-- One iteration of the backward-pass loop body at node `t`
(`backward_pass`, app.py lines 149-168). -/
def bwdStep (g : List TaskNode) (pe : Int) (s : SMap) (t : TaskNode) : SMap :=
  let lf : Option Int :=
    if (succIds g t.id).isEmpty then some pe
    else listMinE ((succIds g t.id).map (fun u => (s u).late_start))
  let ls : Option Int := esub lf t.duration
  let sl : Option Int := esub ls (s t.id).early_start
  fun j =>
    if j = t.id then
      { s j with late_finish := lf, late_start := ls, slack := sl,
                 is_critical := sl == some 0 }
    else s j

/-- `backward_pass` on a graph given in topological order (the loop runs
over the reversed order). -/
def backwardPass (g : List TaskNode) (s : SMap) : SMap :=
  if g.isEmpty then s
  else (g.reverse).foldl (bwdStep g (projectEnd g s)) (clearLate g s)

/-- Both passes, as run by `CriticalPathAnalyzer.__init__` on an acyclic
graph. -/
def runPasses (g : List TaskNode) (s : SMap) : SMap :=
  backwardPass g (forwardPass g s)

/-- The analyzed state of an acyclic graph given in topological order. -/
def analyzeState (g : List TaskNode) : SMap := runPasses g initState

/-- Decidable topological-sortedness of the node list: every effective
dependency of a node occurs earlier in the list. -/
def topoAux (g : List TaskNode) : List TaskNode → List String → Bool
  | [], _ => true
  | t :: rest, seen =>
    (effDeps g t).all (fun d => seen.contains d) && topoAux g rest (t.id :: seen)

def TopoOK (g : List TaskNode) : Bool := topoAux g g []

/-- Kahn topological sort over an explicit node/edge list, with fuel;
`none` iff the graph has a cycle (mirrors `nx.topological_sort` raising
`NetworkXUnfeasible`). -/
def pickSource {α : Type} [DecidableEq α] (rem : List α) (edges : List (α × α)) :
    Option α :=
  rem.find? (fun n => !(edges.any (fun e => e.2 == n && rem.contains e.1)))

def kahnAux {α : Type} [DecidableEq α] (edges : List (α × α)) :
    Nat → List α → Option (List α)
  | 0, rem => if rem.isEmpty then some [] else none
  | fuel + 1, rem =>
    match pickSource rem edges with
    | none => if rem.isEmpty then some [] else none
    | some n => (kahnAux edges fuel (rem.erase n)).map (fun l => n :: l)

/-- The edge set of the built graph, as `dep -> task` pairs. -/
def edgeList (g : List TaskNode) : List (String × String) :=
  g.flatMap (fun t => (effDeps g t).map (fun d => (d, t.id)))

def kahnOrder (g : List TaskNode) : Option (List String) :=
  kahnAux (edgeList g) ((ids g).dedup).length ((ids g).dedup)

def isAcyclic (g : List TaskNode) : Bool := (kahnOrder g).isSome

def nodeFor (g : List TaskNode) (i : String) : Option TaskNode :=
  g.find? (fun t => t.id == i)

def reorder (g : List TaskNode) (ord : List String) : List TaskNode :=
  ord.filterMap (nodeFor g)

/-- The schedule state produced by constructing `CriticalPathAnalyzer` on an
arbitrary task graph: on an acyclic graph both passes run over a topological
order; on a cyclic graph `nx.topological_sort` raises, both passes catch the
exception and return early, so every node keeps its initial attributes. -/
def analyzeCPA (g : List TaskNode) : SMap :=
  match kahnOrder g with
  | some ord => runPasses (reorder g ord) initState
  | none => initState

/-- `get_project_duration`. -/
def getProjectDuration (g : List TaskNode) (s : SMap) : Int :=
  if g.isEmpty then 0 else projectEnd g s

/-- The record shape returned per task by `get_critical_path`. -/
structure CPEntry where
  id : String
  name : String
  duration : Int
  early_start : Int
  early_finish : Int
  late_start : Option Int
  late_finish : Option Int
  slack : Option Int
  is_critical : Bool
  resource : String
deriving Repr, DecidableEq

def cpEntry (s : SMap) (t : TaskNode) : CPEntry :=
  { id := t.id, name := t.name, duration := t.duration,
    early_start := (s t.id).early_start, early_finish := (s t.id).early_finish,
    late_start := (s t.id).late_start, late_finish := (s t.id).late_finish,
    slack := (s t.id).slack, is_critical := (s t.id).is_critical,
    resource := t.resource }

/-- `get_critical_path`: the nodes flagged critical, sorted (stably, like
Python `sorted`) by ascending `early_start`. -/
def getCriticalPath (g : List TaskNode) (s : SMap) : List CPEntry :=
  (List.insertionSort
      (fun a b => (s a.id).early_start ≤ (s b.id).early_start)
      (g.filter (fun t => (s t.id).is_critical))).map (cpEntry s)

/-- Reachability over an explicit edge list (successor step). -/
def succsE {α : Type} [DecidableEq α] (edges : List (α × α)) (i : α) : List α :=
  (edges.filter (fun e => e.1 == i)).map (·.2)

def reachStepE {α : Type} [DecidableEq α] (edges : List (α × α))
    (acc : List α) : List α :=
  acc ++ ((acc.flatMap (succsE edges)).filter (fun x => !acc.contains x)).dedup

def reachAuxE {α : Type} [DecidableEq α] (edges : List (α × α)) :
    Nat → List α → List α
  | 0, acc => acc
  | fuel + 1, acc => reachAuxE edges fuel (reachStepE edges acc)

/-- `nx.descendants G i`: every node reachable from `i` by a non-empty path,
excluding `i` itself. -/
def descendantsE {α : Type} [DecidableEq α] (nodes : List α)
    (edges : List (α × α)) (i : α) : List α :=
  (reachAuxE edges nodes.length ((succsE edges i).dedup)).filter (fun x => x != i)

/-- `len(nx.descendants(self.graph, node))` — the "impact" of a node. -/
def impact (g : List TaskNode) (i : String) : Nat :=
  (descendantsE (ids g) (edgeList g) i).length

/-- The record shape returned per bottleneck by `identify_bottlenecks`. -/
structure BEntry where
  id : String
  name : String
  duration : Int
  resource : String
  impact : Nat
  slack : Option Int
  early_start : Int
  late_start : Option Int
deriving Repr, DecidableEq

def bEntry (g : List TaskNode) (s : SMap) (t : TaskNode) : BEntry :=
  { id := t.id, name := t.name, duration := t.duration, resource := t.resource,
    impact := impact g t.id, slack := (s t.id).slack,
    early_start := (s t.id).early_start, late_start := (s t.id).late_start }

/-- Rational multiplication written out on numerator and denominator
(`Rat.mul` in the library is irreducible, which blocks kernel evaluation);
`qmul_eq` below shows it is the field multiplication of `ℚ`. -/
def qmul (a b : ℚ) : ℚ := mkRat (a.num * b.num) (a.den * b.den)

/-- `slack <= slack_threshold` where slack may be the `inf` sentinel. -/
def slackLeQ : Option Int → ℚ → Bool
  | none, _ => false
  | some x, q => decide ((x : ℚ) ≤ q)

/-- `identify_bottlenecks`: keep nodes with positive duration, slack within
the threshold fraction of project duration, and impact above 1; sort by
impact descending.  The sort actually executed is
`sorted(bottlenecks, key=lambda x: x['impact'], reverse=True)` — stable, so
ties keep node-insertion order; the `(-impact, slack)` sort in the source is
dead code after the `return`. -/
def identifyBottlenecks (g : List TaskNode) (s : SMap) (threshold : ℚ) :
    List BEntry :=
  if g.isEmpty then []
  else
    let pd : Int := listMaxI (g.map (fun t => (s t.id).early_finish))
    let bots := (g.filter (fun t =>
      decide (0 < t.duration) &&
      slackLeQ (s t.id).slack (qmul ((pd : Int) : ℚ) threshold) &&
      decide (1 < impact g t.id))).map (bEntry g s)
    List.insertionSort (fun a b => b.impact ≤ a.impact) bots

/-- The per-task record placed on each enumerated path by
`get_minimum_viable_paths`. -/
structure PTask where
  id : String
  name : String
  duration : Int
  resource : String
deriving Repr, DecidableEq

/-- The internal per-path record of `get_minimum_viable_paths` (the
`all_paths` entries): task details, aggregate duration, and whether every
node on the path is critical. -/
structure PathRec where
  path : List PTask
  duration : Int
  is_critical : Bool
deriving Repr, DecidableEq

def startNodes (g : List TaskNode) : List TaskNode :=
  g.filter (fun t => (effDeps g t).isEmpty)

def endNodes (g : List TaskNode) : List TaskNode :=
  g.filter (fun t => (succIds g t.id).isEmpty)

/-- Depth-first enumeration of simple paths from `cur` to `tgt`, successors
in adjacency (node-insertion) order, as `nx.all_simple_paths` produces them;
fuel bounds the node count of a path. -/
def spAux (g : List TaskNode) (tgt : String) :
    Nat → String → List String → List (List String)
  | 0, _, _ => []
  | fuel + 1, cur, visited =>
    if cur = tgt then [[cur]]
    else
      ((succIds g cur).filter (fun n => !visited.contains n)).flatMap
        (fun n => (spAux g tgt fuel n (cur :: visited)).map (fun p => cur :: p))

/-- `nx.all_simple_paths g s t`: when source equals target the single-node
path is produced; otherwise a depth-first search (a simple path visits at
most `g.length` nodes, so that much fuel is exact). -/
def simplePaths (g : List TaskNode) (s t : String) : List (List String) :=
  if s = t then [[s]] else spAux g t (g.length + 1) s []

/-- The source-to-sink simple-path semantics the enumeration realizes: a
non-empty duplicate-free node sequence following successor edges from
`sId` to `tId`. -/
def SPath (g : List TaskNode) (sId tId : String) (p : List String) : Prop :=
  p ≠ [] ∧ p.head? = some sId ∧ p.getLast? = some tId ∧ p.Nodup ∧
  List.Chain' (fun a b => b ∈ succIds g a) p

def pTask (t : TaskNode) : PTask :=
  { id := t.id, name := t.name, duration := t.duration, resource := t.resource }

def pathRecord (g : List TaskNode) (s : SMap) (p : List String) : PathRec :=
  { path := p.filterMap (fun i => (nodeFor g i).map pTask),
    duration := (p.filterMap (fun i => (nodeFor g i).map (·.duration))).sum,
    is_critical := p.all (fun i => (s i).is_critical) }

/-- The `all_paths` list of `get_minimum_viable_paths`: all simple paths for
every (start node, end node) pair, in loop order. -/
def allPathRecs (g : List TaskNode) (s : SMap) : List PathRec :=
  (startNodes g).flatMap (fun a =>
    (endNodes g).flatMap (fun b =>
      (simplePaths g a.id b.id).map (pathRecord g s)))

/-- `get_minimum_viable_paths`: sort the path records ascending by duration
(stably), take the first `max_paths`, and return ONLY the task lists — the
aggregate duration and the `is_critical` flag are dropped by the final
`[path_info['path'] for ...]`. -/
def minimumViablePaths (g : List TaskNode) (s : SMap) (maxPaths : Nat) :
    List (List PTask) :=
  ((List.insertionSort (fun x y => x.duration ≤ y.duration)
      (allPathRecs g s)).take maxPaths).map (·.path)

/-- Python `int(...)` truncates toward zero. -/
def ratTrunc (q : ℚ) : Int := if 0 ≤ q then ⌊q⌋ else ⌈q⌉

/-- A raw task record as consumed by `_build_dependency_graph`: the three
duration-carrying fields it probes, each possibly absent. -/
structure RawTask where
  taskId : String
  taskName : String
  durationDays : Option ℚ
  durationField : Option ℚ
  estimatedTime : Option ℚ
  resource : String
  deps : List String
deriving Repr, DecidableEq

/-- `float(task.get('Duration (days)', task.get('duration',
task.get('estimated_time', 0))))`. -/
def rawDur (r : RawTask) : ℚ :=
  ((r.durationDays.orElse (fun _ => r.durationField)).orElse
    (fun _ => r.estimatedTime)).getD 0

/-- The duration stored before the minimum clamp: multiplied by the 8-hour
workday factor when a days-denominated key (`Duration (days)` or
`duration`) is present, then `int(...)`. -/
def nodeDuration (r : RawTask) : Int :=
  if r.durationDays.isSome || r.durationField.isSome then ratTrunc (qmul (rawDur r) 8)
  else ratTrunc (rawDur r)

/-- The node added for a raw record: duration clamped by `max(1, duration)`. -/
def buildNode (r : RawTask) : TaskNode :=
  { id := r.taskId, name := r.taskName, duration := max 1 (nodeDuration r),
    resource := r.resource, deps := r.deps }

/-- The node list built by `_build_dependency_graph`: records with an empty
id are skipped. -/
def buildNodes (rs : List RawTask) : List TaskNode :=
  (rs.filter (fun r => r.taskId != "")).map buildNode

/-! ## The ai_collab_optimizer3 variant (`analyze_workflow`) -/

/-- A task as parsed by the optimizer3 `analyze` route. -/
structure Task3 where
  id : Int
  name : String
  assignedTo : String
  estimatedTime : ℚ
  deps : List Int
deriving Repr, DecidableEq

def ids3 (ts : List Task3) : List Int := (ts.map (·.id)).dedup

/-- Edges `dep -> task`, kept only when the dependency id exists; note this
variant has no self-loop guard. -/
def edges3 (ts : List Task3) : List (Int × Int) :=
  (ts.flatMap (fun t =>
    (t.deps.filter (fun d => (ts.map (·.id)).contains d)).map
      (fun d => (d, t.id)))).dedup

def isAcyclic3 (ts : List Task3) : Bool :=
  (kahnAux (edges3 ts) (ids3 ts).length (ids3 ts)).isSome

/-- Node attribute lookup: repeated `G.add_node` calls overwrite, so the last
record with a given id wins. -/
def timeOf (ts : List Task3) (i : Int) : ℚ :=
  ((ts.reverse.find? (fun t => t.id == i)).map (·.estimatedTime)).getD 0

/-- Python `max(..., key=fst)` keeps the first maximal element. -/
def maxByFst : List (Int × Int) → Option (Int × Int)
  | [] => none
  | x :: xs => some (xs.foldl (fun acc c => if c.1 > acc.1 then c else acc) x)

/-- `nx.dag_longest_path` distance table: edge weights default to 1 because
the graph has no `estimated_time` EDGE attribute (it is a node attribute),
so the "longest" path maximizes edge count.  Entries are
`(node, (distance, predecessor-or-self))` in topological order. -/
def lpDist (edges : List (Int × Int)) : List Int → List (Int × Int × Int) →
    List (Int × Int × Int)
  | [], dist => dist
  | v :: rest, dist =>
    let cands : List (Int × Int) :=
      ((edges.filter (fun e => e.2 == v)).map (·.1)).filterMap
        (fun u => ((dist.find? (fun x => x.1 == u)).map (fun x => (x.2.1 + 1, u))))
    let best : Int × Int :=
      match maxByFst cands with
      | some m => if m.1 ≥ 0 then m else (0, v)
      | none => (0, v)
    lpDist edges rest (dist ++ [(v, best)])

def lpWalk (dist : List (Int × Int × Int)) : Nat → Int → List Int
  | 0, _ => []
  | fuel + 1, v =>
    match dist.find? (fun x => x.1 == v) with
    | none => [v]
    | some e => if e.2.2 = v then [v] else lpWalk dist fuel e.2.2 ++ [v]

/-- `nx.dag_longest_path` on an acyclic graph: build the distance table in
topological order, pick the first node of maximal distance, walk the
predecessor chain back. -/
def dagLongestPath (edges : List (Int × Int)) (ord : List Int) : List Int :=
  let dist := lpDist edges ord []
  match maxByFst (dist.map (fun x => (x.2.1, x.1))) with
  | none => []
  | some m => lpWalk dist (ord.length + 1) m.2

/-- The fields of the optimizer3 `analyze_workflow` result involved in cycle
behaviour, plus the bottleneck report. -/
structure Bottleneck3 where
  task_id : Int
  name : String
  assigned_to : String
  estimated_time : ℚ
  dependent_tasks : Nat
  total_impact : ℚ
deriving Repr, DecidableEq

structure Analysis3 where
  critical_path : List Int
  total_time : ℚ
  bottlenecks : List Bottleneck3
  has_cycle : Bool
deriving Repr, DecidableEq

/-- `workload[node] = estimated_time(node) + sum over descendants`. -/
def workload3 (ts : List Task3) (i : Int) : ℚ :=
  timeOf ts i +
    ((descendantsE (ids3 ts) (edges3 ts) i).map (timeOf ts)).sum

def inDegree3 (ts : List Task3) (i : Int) : Nat :=
  ((edges3 ts).filter (fun e => e.2 == i)).length

def nameOf3 (ts : List Task3) (i : Int) : String :=
  ((ts.reverse.find? (fun t => t.id == i)).map (·.name)).getD ""

def assignedOf3 (ts : List Task3) (i : Int) : String :=
  ((ts.reverse.find? (fun t => t.id == i)).map (·.assignedTo)).getD ""

def bottlenecks3 (ts : List Task3) : List Bottleneck3 :=
  (List.insertionSort
      (fun a b => workload3 ts b ≤ workload3 ts a)
      ((ids3 ts).filter (fun n => 1 < inDegree3 ts n))).map
    (fun n =>
      { task_id := n, name := nameOf3 ts n, assigned_to := assignedOf3 ts n,
        estimated_time := timeOf ts n, dependent_tasks := inDegree3 ts n,
        total_impact := workload3 ts n })

/-- `analyze_workflow` of ai_collab_optimizer3: `nx.dag_longest_path` raises
on a cyclic graph, the handler substitutes an empty critical path, and the
result always carries `has_cycle = not nx.is_directed_acyclic_graph(G)`. -/
def analysis3 (ts : List Task3) : Analysis3 :=
  match kahnAux (edges3 ts) (ids3 ts).length (ids3 ts) with
  | some ord =>
    let cp := dagLongestPath (edges3 ts) ord
    { critical_path := cp, total_time := (cp.map (timeOf ts)).sum,
      bottlenecks := bottlenecks3 ts, has_cycle := false }
  | none =>
    { critical_path := [], total_time := 0,
      bottlenecks := bottlenecks3 ts, has_cycle := true }

end GenAI

namespace GenAI

/-- The concrete scenario graph of the spec: A(2), B(3,[A]), C(1,[A]),
D(4,[B,C]). -/
def gABCD : List TaskNode :=
  [ { id := "A", name := "A", duration := 2, resource := "r", deps := [] },
    { id := "B", name := "B", duration := 3, resource := "r", deps := ["A"] },
    { id := "C", name := "C", duration := 1, resource := "r", deps := ["A"] },
    { id := "D", name := "D", duration := 4, resource := "r", deps := ["B", "C"] } ]

/-- A two-node dependency cycle. -/
def gCyc : List TaskNode :=
  [ { id := "A", name := "A", duration := 2, resource := "r", deps := ["B"] },
    { id := "B", name := "B", duration := 3, resource := "r", deps := ["A"] } ]

/-- The order on schedule values where `none` is `+inf` (used only in
statements about the backward pass). -/
def eLE : Option Int → Option Int → Prop
  | none, none => True
  | none, some _ => False
  | some _, none => True
  | some x, some y => x ≤ y

/-- A diamond with two equal-length branches: every node is critical. -/
def gDia : List TaskNode :=
  [ { id := "A", name := "A", duration := 2, resource := "r", deps := [] },
    { id := "B", name := "B", duration := 3, resource := "r", deps := ["A"] },
    { id := "C", name := "C", duration := 3, resource := "r", deps := ["A"] },
    { id := "D", name := "D", duration := 4, resource := "r", deps := ["B", "C"] } ]

/-- Two independent three-task chains; P and X both have impact 2, with
slacks 9 and 0 respectively, and P precedes X in insertion order. -/
def gTie : List TaskNode :=
  [ { id := "P", name := "P", duration := 1, resource := "r", deps := [] },
    { id := "Q", name := "Q", duration := 1, resource := "r", deps := ["P"] },
    { id := "R", name := "R", duration := 1, resource := "r", deps := ["Q"] },
    { id := "X", name := "X", duration := 10, resource := "r", deps := [] },
    { id := "Y", name := "Y", duration := 1, resource := "r", deps := ["X"] },
    { id := "Z", name := "Z", duration := 1, resource := "r", deps := ["Y"] } ]

/-- Two independent equal tasks inserted in the order B, A: both critical
with equal early start. -/
def gBA : List TaskNode :=
  [ { id := "B", name := "B", duration := 2, resource := "r", deps := [] },
    { id := "A", name := "A", duration := 2, resource := "r", deps := [] } ]

/-- A single chain A -> B (its one path is critical). -/
def gChain1 : List TaskNode :=
  [ { id := "A", name := "A", duration := 2, resource := "r", deps := [] },
    { id := "B", name := "B", duration := 3, resource := "r", deps := ["A"] } ]

/-- The same chain A -> B next to a longer chain X -> Y: the A -> B path is
no longer critical but its returned task list is unchanged. -/
def gChain2 : List TaskNode :=
  [ { id := "A", name := "A", duration := 2, resource := "r", deps := [] },
    { id := "B", name := "B", duration := 3, resource := "r", deps := ["A"] },
    { id := "X", name := "X", duration := 10, resource := "r", deps := [] },
    { id := "Y", name := "Y", duration := 10, resource := "r", deps := ["X"] } ]

/-- A raw record whose duration comes from the days-denominated field. -/
def rawDays : RawTask :=
  { taskId := "T", taskName := "T", durationDays := some 2,
    durationField := none, estimatedTime := none, resource := "r", deps := [] }

/-- An optimizer3 task list with a two-node dependency cycle. -/
def tasks3Cyc : List Task3 :=
  [ { id := 1, name := "a", assignedTo := "x", estimatedTime := 2, deps := [2] },
    { id := 2, name := "b", assignedTo := "x", estimatedTime := 3, deps := [1] } ]

end GenAI


namespace GenAI

/-! ## Basic lemmas about the arithmetic helpers -/

theorem qmul_eq (a b : ℚ) : qmul a b = a * b := by
  have hd : a.den * b.den ≠ 0 := Nat.mul_ne_zero a.den_nz b.den_nz
  rw [Rat.mul_def, qmul, mkRat, dif_neg hd]

theorem foldl_max_init_le (l : List Int) (a : Int) : a ≤ l.foldl max a := by
  induction l generalizing a with
  | nil => exact le_refl a
  | cons x xs ih => exact le_trans (le_max_left a x) (ih (max a x))

theorem foldl_max_le_of_mem {l : List Int} {x : Int} (hx : x ∈ l) (a : Int) :
    x ≤ l.foldl max a := by
  induction l generalizing a with
  | nil => cases hx
  | cons y ys ih =>
    rcases List.mem_cons.mp hx with h | h
    · subst h
      exact le_trans (le_max_right a x) (foldl_max_init_le ys (max a x))
    · exact ih h (max a y)

theorem foldl_max_mem (l : List Int) (a : Int) :
    l.foldl max a = a ∨ l.foldl max a ∈ l := by
  induction l generalizing a with
  | nil => exact Or.inl rfl
  | cons x xs ih =>
    have h1 : (x :: xs).foldl max a = xs.foldl max (max a x) := rfl
    rcases ih (max a x) with h | h
    · rcases max_choice a x with hc | hc
      · exact Or.inl (by rw [h1, h, hc])
      · exact Or.inr (by rw [h1, h, hc]; exact List.mem_cons_self x xs)
    · exact Or.inr (by rw [h1]; exact List.mem_cons_of_mem x h)

theorem le_listMaxI {l : List Int} {x : Int} (hx : x ∈ l) : x ≤ listMaxI l := by
  cases l with
  | nil => cases hx
  | cons y ys =>
    rcases List.mem_cons.mp hx with h | h
    · subst h; exact foldl_max_init_le ys x
    · exact foldl_max_le_of_mem h y

theorem listMaxI_mem {l : List Int} (h : l ≠ []) : listMaxI l ∈ l := by
  cases l with
  | nil => exact absurd rfl h
  | cons y ys =>
    have h1 : listMaxI (y :: ys) = ys.foldl max y := rfl
    rcases foldl_max_mem ys y with h2 | h2
    · rw [h1, h2]; exact List.mem_cons_self y ys
    · rw [h1]; exact List.mem_cons_of_mem y h2

theorem eLE_refl (a : Option Int) : eLE a a := by
  cases a <;> simp [eLE]

theorem emin_eLE_left (a b : Option Int) : eLE (emin a b) a := by
  cases a <;> cases b <;> simp [emin, eLE, min_le_left]

theorem emin_eLE_right (a b : Option Int) : eLE (emin a b) b := by
  cases a <;> cases b <;> simp [emin, eLE, min_le_right]

theorem eLE_trans {a b c : Option Int} (h1 : eLE a b) (h2 : eLE b c) : eLE a c := by
  cases a <;> cases b <;> cases c <;> simp_all [eLE] <;> omega

theorem foldl_emin_init (l : List (Option Int)) (a : Option Int) :
    eLE (l.foldl emin a) a := by
  induction l generalizing a with
  | nil => exact eLE_refl a
  | cons x xs ih =>
    exact eLE_trans (ih (emin a x)) (emin_eLE_left a x)

theorem foldl_emin_le_of_mem {l : List (Option Int)} {x : Option Int}
    (hx : x ∈ l) (a : Option Int) : eLE (l.foldl emin a) x := by
  induction l generalizing a with
  | nil => cases hx
  | cons y ys ih =>
    rcases List.mem_cons.mp hx with h | h
    · subst h
      exact eLE_trans (foldl_emin_init ys (emin a x)) (emin_eLE_right a x)
    · exact ih h (emin a y)

theorem listMinE_eLE_of_mem {l : List (Option Int)} {x : Option Int}
    (hx : x ∈ l) : eLE (listMinE l) x := by
  cases l with
  | nil => cases hx
  | cons y ys =>
    rcases List.mem_cons.mp hx with h | h
    · subst h; exact foldl_emin_init ys x
    · exact foldl_emin_le_of_mem h y

theorem foldl_emin_some_ge {c : Int} :
    ∀ (l : List (Option Int)) (a : Option Int) (va : Int), a = some va → c ≤ va →
      (∀ x ∈ l, ∃ v, x = some v ∧ c ≤ v) →
      ∃ w, l.foldl emin a = some w ∧ c ≤ w := by
  intro l
  induction l with
  | nil => intro a va ha hc _; exact ⟨va, by simpa using ha, hc⟩
  | cons x xs ih =>
    intro a va ha hc hall
    obtain ⟨vx, hvx, hcx⟩ := hall x (List.mem_cons_self x xs)
    have hmin : emin a x = some (min va vx) := by
      rw [ha, hvx]; rfl
    exact ih (emin a x) (min va vx) hmin (le_min hc hcx)
      (fun y hy => hall y (List.mem_cons_of_mem x hy))

theorem listMinE_some_ge {c : Int} {l : List (Option Int)} (hne : l ≠ [])
    (hall : ∀ x ∈ l, ∃ v, x = some v ∧ c ≤ v) :
    ∃ w, listMinE l = some w ∧ c ≤ w := by
  cases l with
  | nil => exact absurd rfl hne
  | cons y ys =>
    obtain ⟨vy, hvy, hcy⟩ := hall y (List.mem_cons_self y ys)
    exact foldl_emin_some_ge ys y vy hvy hcy
      (fun x hx => hall x (List.mem_cons_of_mem y hx))

end GenAI

namespace GenAI

/-! ## Graph-structure lemmas -/

theorem mem_ids {g : List TaskNode} {i : String} :
    i ∈ ids g ↔ ∃ t ∈ g, t.id = i := by
  simp [ids, List.mem_map]

theorem effDeps_spec {g : List TaskNode} {t : TaskNode} {d : String} :
    d ∈ effDeps g t ↔ d ∈ t.deps ∧ d ≠ t.id ∧ d ∈ ids g := by
  simp [effDeps, List.mem_dedup, List.mem_filter, bne_iff_ne, and_assoc]

theorem effDeps_ne_self {g : List TaskNode} {t : TaskNode} {d : String}
    (hd : d ∈ effDeps g t) : d ≠ t.id :=
  (effDeps_spec.mp hd).2.1

theorem effDeps_mem_ids {g : List TaskNode} {t : TaskNode} {d : String}
    (hd : d ∈ effDeps g t) : d ∈ ids g :=
  (effDeps_spec.mp hd).2.2

theorem succIds_spec {g : List TaskNode} {i x : String} :
    x ∈ succIds g i ↔ ∃ u ∈ g, i ∈ effDeps g u ∧ u.id = x := by
  simp [succIds, List.mem_map, List.mem_filter]
  constructor
  · rintro ⟨u, ⟨hu, hc⟩, hx⟩; exact ⟨u, hu, hc, hx⟩
  · rintro ⟨u, hu, hc, hx⟩; exact ⟨u, ⟨hu, hc⟩, hx⟩

theorem topoAux_deps (g : List TaskNode) :
    ∀ (m₁ : List TaskNode) (t : TaskNode) (m₂ : List TaskNode) (seen : List String),
      topoAux g (m₁ ++ t :: m₂) seen = true →
      ∀ d ∈ effDeps g t, d ∈ ids m₁ ∨ d ∈ seen := by
  intro m₁
  induction m₁ with
  | nil =>
    intro t m₂ seen h d hd
    rw [List.nil_append, topoAux, Bool.and_eq_true] at h
    have := (List.all_eq_true.mp h.1) d hd
    right
    simpa using this
  | cons x xs ih =>
    intro t m₂ seen h d hd
    rw [List.cons_append, topoAux, Bool.and_eq_true] at h
    rcases ih t m₂ (x.id :: seen) h.2 d hd with h1 | h1
    · left; exact List.mem_cons_of_mem _ h1
    · rcases List.mem_cons.mp h1 with h2 | h2
      · left; rw [h2]; exact List.mem_cons_self _ _
      · right; exact h2

theorem topo_deps_before {g l₁ l₂ : List TaskNode} {t : TaskNode}
    (hT : TopoOK g = true) (hg : g = l₁ ++ t :: l₂) :
    ∀ d ∈ effDeps g t, d ∈ ids l₁ := by
  intro d hd
  have h : topoAux g (l₁ ++ t :: l₂) [] = true := by rw [← hg]; exact hT
  rcases topoAux_deps g l₁ t l₂ [] h d hd with h1 | h1
  · exact h1
  · cases h1

theorem ids_append (l₁ l₂ : List TaskNode) : ids (l₁ ++ l₂) = ids l₁ ++ ids l₂ := by
  simp [ids]

theorem nodup_decomp {g l₁ l₂ : List TaskNode} {t : TaskNode}
    (hN : (ids g).Nodup) (hg : g = l₁ ++ t :: l₂) :
    t.id ∉ ids l₁ ∧ t.id ∉ ids l₂ ∧ ∀ p ∈ ids l₁, p ∉ ids (t :: l₂) := by
  subst hg
  rw [ids_append] at hN
  have h := List.nodup_append.mp hN
  have hdisj := h.2.2
  have hcons : (ids (t :: l₂)).Nodup := h.2.1
  have ht2 : t.id ∉ ids l₂ := by
    have : ids (t :: l₂) = t.id :: ids l₂ := rfl
    rw [this] at hcons
    exact (List.nodup_cons.mp hcons).1
  refine ⟨?_, ht2, ?_⟩
  · intro hmem
    exact (hdisj hmem) (by simp [ids])
  · intro p hp hpc
    exact (hdisj hp) hpc

theorem topo_succ_after {g l₁ l₂ : List TaskNode} {t : TaskNode}
    (hT : TopoOK g = true) (hN : (ids g).Nodup) (hg : g = l₁ ++ t :: l₂) :
    ∀ u ∈ g, t.id ∈ effDeps g u → u ∈ l₂ := by
  intro u hu hdep
  rcases List.mem_append.mp (hg ▸ hu) with h1 | h1
  · exfalso
    obtain ⟨a, b, hab⟩ := List.append_of_mem h1
    have hg2 : g = a ++ u :: (b ++ t :: l₂) := by
      rw [hg, hab]; simp
    have hta : t.id ∈ ids a := topo_deps_before hT hg2 t.id hdep
    have hN2 := nodup_decomp hN hg2
    have htin : t.id ∈ ids (u :: (b ++ t :: l₂)) := by
      simp [ids, List.mem_map]
    exact (hN2.2.2 t.id hta) htin
  · rcases List.mem_cons.mp h1 with h2 | h2
    · exfalso
      exact effDeps_ne_self (h2 ▸ hdep) rfl
    · exact h2

end GenAI

namespace GenAI

/-! ## Forward-pass lemmas -/

theorem fwdStep_ne (g : List TaskNode) (s : SMap) (t : TaskNode) {j : String}
    (hj : j ≠ t.id) : fwdStep g s t j = s j := by
  simp [fwdStep, hj]

theorem foldl_fwd_not_mem (g : List TaskNode) :
    ∀ (l : List TaskNode) (s : SMap) (j : String), j ∉ ids l →
      l.foldl (fwdStep g) s j = s j := by
  intro l
  induction l with
  | nil => intro s j _; rfl
  | cons t rest ih =>
    intro s j hj
    have hj1 : j ≠ t.id := by
      intro h; exact hj (by rw [h]; simp [ids])
    have hj2 : j ∉ ids rest := by
      intro h; exact hj (by simp [ids] at h ⊢; exact Or.inr h)
    calc (t :: rest).foldl (fwdStep g) s j
        = rest.foldl (fwdStep g) (fwdStep g s t) j := rfl
      _ = fwdStep g s t j := ih (fwdStep g s t) j hj2
      _ = s j := fwdStep_ne g s t hj1

theorem forwardPass_char {g l₁ l₂ : List TaskNode} {t : TaskNode} (s : SMap)
    (hT : TopoOK g = true) (hN : (ids g).Nodup) (hg : g = l₁ ++ t :: l₂) :
    (forwardPass g s t.id).early_start =
      (if (effDeps g t).isEmpty then 0
       else listMaxI ((effDeps g t).map (fun p => (forwardPass g s p).early_finish)))
    ∧ (forwardPass g s t.id).early_finish =
        (forwardPass g s t.id).early_start + t.duration
    ∧ (forwardPass g s t.id).late_start = (s t.id).late_start
    ∧ (forwardPass g s t.id).late_finish = (s t.id).late_finish
    ∧ (forwardPass g s t.id).slack = (s t.id).slack
    ∧ (forwardPass g s t.id).is_critical = (s t.id).is_critical := by
  have hnd := nodup_decomp hN hg
  have hdeps := topo_deps_before hT hg
  subst hg
  have hsplit : forwardPass (l₁ ++ t :: l₂) s
      = l₂.foldl (fwdStep (l₁ ++ t :: l₂))
          (fwdStep (l₁ ++ t :: l₂) (l₁.foldl (fwdStep (l₁ ++ t :: l₂)) s) t) := by
    rw [forwardPass, List.foldl_append]
    rfl
  have hFt : forwardPass (l₁ ++ t :: l₂) s t.id
      = fwdStep (l₁ ++ t :: l₂) (l₁.foldl (fwdStep (l₁ ++ t :: l₂)) s) t t.id := by
    rw [hsplit]
    exact foldl_fwd_not_mem _ l₂ _ t.id hnd.2.1
  have hst : l₁.foldl (fwdStep (l₁ ++ t :: l₂)) s t.id = s t.id :=
    foldl_fwd_not_mem _ l₁ s t.id hnd.1
  have hFp : ∀ p ∈ effDeps (l₁ ++ t :: l₂) t,
      forwardPass (l₁ ++ t :: l₂) s p = l₁.foldl (fwdStep (l₁ ++ t :: l₂)) s p := by
    intro p hp
    have hp1 : p ∈ ids l₁ := hdeps p hp
    have hp2 : p ∉ ids (t :: l₂) := hnd.2.2 p hp1
    have hp3 : p ∉ ids l₂ := by
      intro h; exact hp2 (by simp [ids] at h ⊢; exact Or.inr h)
    have hpt : p ≠ t.id := by
      intro h; exact hp2 (by rw [h]; simp [ids])
    rw [hsplit, foldl_fwd_not_mem _ l₂ _ p hp3, fwdStep_ne _ _ _ hpt]
  have hmap : (effDeps (l₁ ++ t :: l₂) t).map
        (fun p => (forwardPass (l₁ ++ t :: l₂) s p).early_finish)
      = (effDeps (l₁ ++ t :: l₂) t).map
        (fun p => (l₁.foldl (fwdStep (l₁ ++ t :: l₂)) s p).early_finish) := by
    apply List.map_congr_left
    intro p hp
    rw [hFp p hp]
  rw [hFt, hmap]
  simp only [fwdStep, hst]
  by_cases hE : (effDeps (l₁ ++ t :: l₂) t).isEmpty
  · simp [hE]
  · simp [hE]

end GenAI

namespace GenAI

/-! ## Backward-pass lemmas -/

theorem bwdStep_ne (g : List TaskNode) (pe : Int) (s : SMap) (t : TaskNode)
    {j : String} (hj : j ≠ t.id) : bwdStep g pe s t j = s j := by
  simp [bwdStep, hj]

theorem foldl_bwd_not_mem (g : List TaskNode) (pe : Int) :
    ∀ (l : List TaskNode) (s : SMap) (j : String), j ∉ ids l →
      l.foldl (bwdStep g pe) s j = s j := by
  intro l
  induction l with
  | nil => intro s j _; rfl
  | cons t rest ih =>
    intro s j hj
    have hj1 : j ≠ t.id := by
      intro h; exact hj (by rw [h]; simp [ids])
    have hj2 : j ∉ ids rest := by
      intro h; exact hj (by simp [ids] at h ⊢; exact Or.inr h)
    calc (t :: rest).foldl (bwdStep g pe) s j
        = rest.foldl (bwdStep g pe) (bwdStep g pe s t) j := rfl
      _ = bwdStep g pe s t j := ih (bwdStep g pe s t) j hj2
      _ = s j := bwdStep_ne g pe s t hj1

theorem bwdStep_es_ef (g : List TaskNode) (pe : Int) (s : SMap) (t : TaskNode)
    (j : String) :
    (bwdStep g pe s t j).early_start = (s j).early_start ∧
    (bwdStep g pe s t j).early_finish = (s j).early_finish := by
  by_cases hj : j = t.id <;> simp [bwdStep, hj]

theorem foldl_bwd_es_ef (g : List TaskNode) (pe : Int) :
    ∀ (l : List TaskNode) (s : SMap) (j : String),
      (l.foldl (bwdStep g pe) s j).early_start = (s j).early_start ∧
      (l.foldl (bwdStep g pe) s j).early_finish = (s j).early_finish := by
  intro l
  induction l with
  | nil => intro s j; exact ⟨rfl, rfl⟩
  | cons t rest ih =>
    intro s j
    have h1 := ih (bwdStep g pe s t) j
    have h2 := bwdStep_es_ef g pe s t j
    exact ⟨h1.1.trans h2.1, h1.2.trans h2.2⟩

theorem clearLate_es_ef (g : List TaskNode) (s : SMap) (j : String) :
    (clearLate g s j).early_start = (s j).early_start ∧
    (clearLate g s j).early_finish = (s j).early_finish := by
  by_cases hj : j ∈ ids g <;> simp [clearLate, hj]

theorem backwardPass_es_ef (g : List TaskNode) (s : SMap) (j : String) :
    (backwardPass g s j).early_start = (s j).early_start ∧
    (backwardPass g s j).early_finish = (s j).early_finish := by
  by_cases hg : g.isEmpty
  · simp [backwardPass, hg]
  · rw [backwardPass, if_neg hg]
    have h1 := foldl_bwd_es_ef g (projectEnd g s) g.reverse (clearLate g s) j
    have h2 := clearLate_es_ef g s j
    exact ⟨h1.1.trans h2.1, h1.2.trans h2.2⟩

theorem fwdStep_late (g : List TaskNode) (s : SMap) (t : TaskNode) (j : String) :
    (fwdStep g s t j).late_start = (s j).late_start ∧
    (fwdStep g s t j).late_finish = (s j).late_finish ∧
    (fwdStep g s t j).slack = (s j).slack ∧
    (fwdStep g s t j).is_critical = (s j).is_critical := by
  by_cases hj : j = t.id <;> simp [fwdStep, hj]

theorem forwardPass_late (g : List TaskNode) :
    ∀ (l : List TaskNode) (s : SMap) (j : String),
      (l.foldl (fwdStep g) s j).late_start = (s j).late_start ∧
      (l.foldl (fwdStep g) s j).late_finish = (s j).late_finish ∧
      (l.foldl (fwdStep g) s j).slack = (s j).slack ∧
      (l.foldl (fwdStep g) s j).is_critical = (s j).is_critical := by
  intro l
  induction l with
  | nil => intro s j; exact ⟨rfl, rfl, rfl, rfl⟩
  | cons t rest ih =>
    intro s j
    have h1 := ih (fwdStep g s t) j
    have h2 := fwdStep_late g s t j
    exact ⟨h1.1.trans h2.1, h1.2.1.trans h2.2.1, h1.2.2.1.trans h2.2.2.1,
      h1.2.2.2.trans h2.2.2.2⟩

theorem backwardPass_char {g l₁ l₂ : List TaskNode} {t : TaskNode} (s : SMap)
    (hT : TopoOK g = true) (hN : (ids g).Nodup) (hg : g = l₁ ++ t :: l₂) :
    (backwardPass g s t.id).late_finish =
      (if (succIds g t.id).isEmpty then some (projectEnd g s)
       else listMinE ((succIds g t.id).map
         (fun u => (backwardPass g s u).late_start)))
    ∧ (backwardPass g s t.id).late_start =
        esub (backwardPass g s t.id).late_finish t.duration
    ∧ (backwardPass g s t.id).slack =
        esub (backwardPass g s t.id).late_start (s t.id).early_start
    ∧ (backwardPass g s t.id).is_critical =
        ((backwardPass g s t.id).slack == some 0) := by
  have hnd := nodup_decomp hN hg
  have hne : g.isEmpty = false := by
    rw [hg]; cases l₁ <;> rfl
  have hrev : g.reverse = l₂.reverse ++ t :: l₁.reverse := by
    rw [hg]; simp
  have hBdef : backwardPass g s
      = (l₁.reverse).foldl (bwdStep g (projectEnd g s))
          (bwdStep g (projectEnd g s)
            ((l₂.reverse).foldl (bwdStep g (projectEnd g s)) (clearLate g s)) t) := by
    rw [backwardPass, if_neg (by rw [hne]; exact Bool.false_ne_true), hrev,
      List.foldl_append]
    rfl
  have htl₁ : t.id ∉ ids l₁.reverse := by
    intro h
    exact hnd.1 (by simpa [ids, List.mem_reverse] using h)
  have hBt : backwardPass g s t.id
      = bwdStep g (projectEnd g s)
          ((l₂.reverse).foldl (bwdStep g (projectEnd g s)) (clearLate g s)) t t.id := by
    rw [hBdef]
    exact foldl_bwd_not_mem _ _ l₁.reverse _ t.id htl₁
  have hsuccB : ∀ x ∈ succIds g t.id,
      backwardPass g s x
        = (l₂.reverse).foldl (bwdStep g (projectEnd g s)) (clearLate g s) x := by
    intro x hx
    obtain ⟨u, hu, hdep, hux⟩ := succIds_spec.mp hx
    have hul₂ : u ∈ l₂ := topo_succ_after hT hN hg u hu hdep
    have hxl₂ : x ∈ ids l₂ := by
      rw [← hux]; exact List.mem_map_of_mem _ hul₂
    have hxt : x ≠ t.id := by
      intro h; exact hnd.2.1 (h ▸ hxl₂)
    have hxl₁ : x ∉ ids l₁.reverse := by
      intro h
      have hx1 : x ∈ ids l₁ := by simpa [ids, List.mem_reverse] using h
      exact hnd.2.2 x hx1 (List.mem_cons_of_mem _ hxl₂)
    rw [hBdef, foldl_bwd_not_mem _ _ l₁.reverse _ x hxl₁, bwdStep_ne _ _ _ _ hxt]
  have hmap : (succIds g t.id).map (fun u => (backwardPass g s u).late_start)
      = (succIds g t.id).map
          (fun u => ((l₂.reverse).foldl (bwdStep g (projectEnd g s))
            (clearLate g s) u).late_start) := by
    apply List.map_congr_left
    intro x hx
    rw [hsuccB x hx]
  have hest : ((l₂.reverse).foldl (bwdStep g (projectEnd g s))
      (clearLate g s) t.id).early_start = (s t.id).early_start := by
    have h1 := foldl_bwd_es_ef g (projectEnd g s) l₂.reverse (clearLate g s) t.id
    have h2 := clearLate_es_ef g s t.id
    exact h1.1.trans h2.1
  rw [hBt, hmap]
  simp only [bwdStep, hest]
  by_cases hS : (succIds g t.id).isEmpty
  · simp [hS]
  · simp [hS]

end GenAI

namespace GenAI

/-! ## Characterization of the fully analyzed state -/

theorem analyzeState_def (g : List TaskNode) :
    analyzeState g = backwardPass g (forwardPass g initState) := rfl

theorem analyzeState_es_ef (g : List TaskNode) (j : String) :
    (analyzeState g j).early_start = (forwardPass g initState j).early_start ∧
    (analyzeState g j).early_finish = (forwardPass g initState j).early_finish :=
  backwardPass_es_ef g (forwardPass g initState) j

theorem projectEnd_analyzeState (g : List TaskNode) :
    projectEnd g (analyzeState g) = projectEnd g (forwardPass g initState) := by
  unfold projectEnd
  congr 1
  apply List.map_congr_left
  intro t _
  exact (analyzeState_es_ef g t.id).2

theorem analyzeState_es {g l₁ l₂ : List TaskNode} {t : TaskNode}
    (hT : TopoOK g = true) (hN : (ids g).Nodup) (hg : g = l₁ ++ t :: l₂) :
    (analyzeState g t.id).early_start =
      (if (effDeps g t).isEmpty then 0
       else listMaxI ((effDeps g t).map
         (fun p => (analyzeState g p).early_finish))) := by
  have hfwd := forwardPass_char initState hT hN hg
  have htr := analyzeState_es_ef g t.id
  rw [htr.1, hfwd.1]
  by_cases hE : (effDeps g t).isEmpty
  · simp [hE]
  · simp only [hE, if_false]
    have hm : (effDeps g t).map (fun p => (forwardPass g initState p).early_finish)
        = (effDeps g t).map (fun p => (analyzeState g p).early_finish) := by
      apply List.map_congr_left
      intro p _
      exact ((analyzeState_es_ef g p).2).symm
    rw [hm]

theorem analyzeState_ef {g l₁ l₂ : List TaskNode} {t : TaskNode}
    (hT : TopoOK g = true) (hN : (ids g).Nodup) (hg : g = l₁ ++ t :: l₂) :
    (analyzeState g t.id).early_finish =
      (analyzeState g t.id).early_start + t.duration := by
  have hfwd := forwardPass_char initState hT hN hg
  have htr := analyzeState_es_ef g t.id
  rw [htr.1, htr.2, hfwd.2.1]

theorem analyzeState_late {g l₁ l₂ : List TaskNode} {t : TaskNode}
    (hT : TopoOK g = true) (hN : (ids g).Nodup) (hg : g = l₁ ++ t :: l₂) :
    (analyzeState g t.id).late_finish =
      (if (succIds g t.id).isEmpty then some (projectEnd g (analyzeState g))
       else listMinE ((succIds g t.id).map
         (fun u => (analyzeState g u).late_start)))
    ∧ (analyzeState g t.id).late_start =
        esub (analyzeState g t.id).late_finish t.duration
    ∧ (analyzeState g t.id).slack =
        esub (analyzeState g t.id).late_start (analyzeState g t.id).early_start
    ∧ (analyzeState g t.id).is_critical =
        ((analyzeState g t.id).slack == some 0) := by
  have hbwd := backwardPass_char (forwardPass g initState) hT hN hg
  have hpe : projectEnd g (forwardPass g initState)
      = projectEnd g (analyzeState g) := (projectEnd_analyzeState g).symm
  refine ⟨?_, hbwd.2.1, ?_, hbwd.2.2.2⟩
  · have h1 := hbwd.1
    rw [hpe] at h1
    exact h1
  · have h2 := hbwd.2.2.1
    have h3 := (backwardPass_es_ef g (forwardPass g initState) t.id).1
    rw [← h3] at h2
    exact h2

theorem analyzeState_ef_le_pe {g : List TaskNode} {t : TaskNode} (ht : t ∈ g) :
    (analyzeState g t.id).early_finish ≤ projectEnd g (analyzeState g) := by
  apply le_listMaxI
  exact List.mem_map_of_mem _ ht

theorem analyzeState_dep_ef_le_es {g l₁ l₂ : List TaskNode} {t : TaskNode}
    {d : String} (hT : TopoOK g = true) (hN : (ids g).Nodup)
    (hg : g = l₁ ++ t :: l₂) (hd : d ∈ effDeps g t) :
    (analyzeState g d).early_finish ≤ (analyzeState g t.id).early_start := by
  rw [analyzeState_es hT hN hg]
  have hne : ¬(effDeps g t).isEmpty := by
    intro h
    rw [List.isEmpty_iff] at h
    rw [h] at hd
    cases hd
  rw [if_neg hne]
  exact le_listMaxI (List.mem_map_of_mem _ hd)

theorem analyzeState_es_attained {g l₁ l₂ : List TaskNode} {t : TaskNode}
    (hT : TopoOK g = true) (hN : (ids g).Nodup) (hg : g = l₁ ++ t :: l₂)
    (hne : ¬(effDeps g t).isEmpty) :
    ∃ d ∈ effDeps g t,
      (analyzeState g t.id).early_start = (analyzeState g d).early_finish := by
  rw [analyzeState_es hT hN hg, if_neg hne]
  have hmapne : (effDeps g t).map (fun p => (analyzeState g p).early_finish) ≠ [] := by
    intro h
    rw [List.map_eq_nil_iff] at h
    rw [h] at hne
    exact hne rfl
  obtain ⟨d, hd, hv⟩ := List.mem_map.mp (listMaxI_mem hmapne)
  exact ⟨d, hd, hv.symm⟩

end GenAI

namespace GenAI

/-! ## Slack facts -/

theorem ls_ge_es_sink {g l₁ l₂ : List TaskNode} {t : TaskNode}
    (hT : TopoOK g = true) (hN : (ids g).Nodup) (hg : g = l₁ ++ t :: l₂)
    (hS : (succIds g t.id).isEmpty) :
    ∃ v, (analyzeState g t.id).late_start = some v ∧
      (analyzeState g t.id).early_start ≤ v := by
  have hchar := analyzeState_late hT hN hg
  have hlf : (analyzeState g t.id).late_finish
      = some (projectEnd g (analyzeState g)) := by
    rw [hchar.1, if_pos hS]
  have hls : (analyzeState g t.id).late_start
      = some (projectEnd g (analyzeState g) - t.duration) := by
    rw [hchar.2.1, hlf]; rfl
  have ht : t ∈ g := by rw [hg]; simp
  have hef := analyzeState_ef_le_pe ht
  have hef2 := analyzeState_ef hT hN hg
  exact ⟨projectEnd g (analyzeState g) - t.duration, hls, by omega⟩

theorem ls_ge_es_aux {g : List TaskNode} (hT : TopoOK g = true)
    (hN : (ids g).Nodup) :
    ∀ n : Nat, ∀ l₁ t l₂, g = l₁ ++ t :: l₂ → l₂.length ≤ n →
      ∃ v, (analyzeState g t.id).late_start = some v ∧
        (analyzeState g t.id).early_start ≤ v := by
  intro n
  induction n with
  | zero =>
    intro l₁ t l₂ hg hlen
    have hl₂ : l₂ = [] := List.length_eq_zero.mp (Nat.le_zero.mp hlen)
    subst hl₂
    have hS : (succIds g t.id).isEmpty := by
      rw [List.isEmpty_iff, List.eq_nil_iff_forall_not_mem]
      intro x hx
      obtain ⟨u, hu, hdep, _⟩ := succIds_spec.mp hx
      exact absurd (topo_succ_after hT hN hg u hu hdep) (List.not_mem_nil u)
    exact ls_ge_es_sink hT hN hg hS
  | succ n ih =>
    intro l₁ t l₂ hg hlen
    by_cases hS : (succIds g t.id).isEmpty
    · exact ls_ge_es_sink hT hN hg hS
    · have hchar := analyzeState_late hT hN hg
      have hall : ∀ x ∈ (succIds g t.id).map
          (fun u => (analyzeState g u).late_start),
          ∃ v, x = some v ∧ (analyzeState g t.id).early_finish ≤ v := by
        intro x hx
        obtain ⟨y, hy, hyx⟩ := List.mem_map.mp hx
        obtain ⟨u, hu, hdep, huy⟩ := succIds_spec.mp hy
        have hul₂ : u ∈ l₂ := topo_succ_after hT hN hg u hu hdep
        obtain ⟨a, b, hab⟩ := List.append_of_mem hul₂
        have hg2 : g = (l₁ ++ t :: a) ++ u :: b := by
          rw [hg, hab]; simp
        have hblen : b.length ≤ n := by
          have : l₂.length = a.length + 1 + b.length := by
            rw [hab]; simp [List.length_append]; omega
          omega
        obtain ⟨v, hv, hvge⟩ := ih (l₁ ++ t :: a) u b hg2 hblen
        have hedge := analyzeState_dep_ef_le_es hT hN hg2 hdep
        refine ⟨v, ?_, by omega⟩
        rw [← hyx, ← huy]
        exact hv
      have hmapne : (succIds g t.id).map (fun u => (analyzeState g u).late_start) ≠ [] := by
        intro h
        rw [List.map_eq_nil_iff] at h
        rw [List.isEmpty_iff] at hS
        exact hS h
      obtain ⟨w, hw, hwge⟩ := listMinE_some_ge hmapne hall
      have hlf : (analyzeState g t.id).late_finish = some w := by
        rw [hchar.1, if_neg hS, hw]
      have hls : (analyzeState g t.id).late_start = some (w - t.duration) := by
        rw [hchar.2.1, hlf]; rfl
      have hef2 := analyzeState_ef hT hN hg
      exact ⟨w - t.duration, hls, by omega⟩

theorem analyzeState_ls_ge_es {g : List TaskNode} (hT : TopoOK g = true)
    (hN : (ids g).Nodup) {t : TaskNode} (ht : t ∈ g) :
    ∃ v, (analyzeState g t.id).late_start = some v ∧
      (analyzeState g t.id).early_start ≤ v := by
  obtain ⟨l₁, l₂, hg⟩ := List.append_of_mem ht
  exact ls_ge_es_aux hT hN l₂.length l₁ t l₂ hg (le_refl _)

theorem analyzeState_slack_nonneg {g : List TaskNode} (hT : TopoOK g = true)
    (hN : (ids g).Nodup) {t : TaskNode} (ht : t ∈ g) :
    ∃ v, (analyzeState g t.id).slack = some v ∧ 0 ≤ v := by
  obtain ⟨l₁, l₂, hg⟩ := List.append_of_mem ht
  have hchar := analyzeState_late hT hN hg
  obtain ⟨v, hv, hvge⟩ := analyzeState_ls_ge_es hT hN ht
  refine ⟨v - (analyzeState g t.id).early_start, ?_, by omega⟩
  rw [hchar.2.2.1, hv]
  rfl

end GenAI

namespace GenAI

/-! ## Critical tasks and the project end -/

theorem analyzeState_crit_iff {g l₁ l₂ : List TaskNode} {t : TaskNode}
    (hT : TopoOK g = true) (hN : (ids g).Nodup) (hg : g = l₁ ++ t :: l₂) :
    (analyzeState g t.id).is_critical = true ↔
      (analyzeState g t.id).slack = some 0 := by
  rw [(analyzeState_late hT hN hg).2.2.2]
  simp [beq_iff_eq]

theorem exists_ef_eq_pe {g : List TaskNode} (hne : g ≠ []) :
    ∃ m ∈ g, (analyzeState g m.id).early_finish = projectEnd g (analyzeState g) := by
  have hmapne : g.map (fun t => (analyzeState g t.id).early_finish) ≠ [] := by
    intro h
    exact hne (List.map_eq_nil_iff.mp h)
  obtain ⟨m, hm, hv⟩ := List.mem_map.mp (listMaxI_mem hmapne)
  exact ⟨m, hm, hv⟩

theorem argmax_sink {g : List TaskNode} {m : TaskNode} (hT : TopoOK g = true)
    (hN : (ids g).Nodup) (hdur : ∀ u ∈ g, 1 ≤ u.duration) (hm : m ∈ g)
    (hef : (analyzeState g m.id).early_finish = projectEnd g (analyzeState g)) :
    (succIds g m.id).isEmpty := by
  rw [List.isEmpty_iff, List.eq_nil_iff_forall_not_mem]
  intro x hx
  obtain ⟨u, hu, hdep, _⟩ := succIds_spec.mp hx
  obtain ⟨p₁, p₂, hp⟩ := List.append_of_mem hu
  have h1 := analyzeState_dep_ef_le_es hT hN hp hdep
  have h2 := analyzeState_ef hT hN hp
  have h3 := analyzeState_ef_le_pe hu
  have h4 := hdur u hu
  omega

theorem argmax_slack_zero {g : List TaskNode} {m : TaskNode} (hT : TopoOK g = true)
    (hN : (ids g).Nodup) (hdur : ∀ u ∈ g, 1 ≤ u.duration) (hm : m ∈ g)
    (hef : (analyzeState g m.id).early_finish = projectEnd g (analyzeState g)) :
    (analyzeState g m.id).slack = some 0 := by
  obtain ⟨l₁, l₂, hg⟩ := List.append_of_mem hm
  have hchar := analyzeState_late hT hN hg
  have hS := argmax_sink hT hN hdur hm hef
  have hlf : (analyzeState g m.id).late_finish
      = some (projectEnd g (analyzeState g)) := by
    rw [hchar.1, if_pos hS]
  have hls : (analyzeState g m.id).late_start
      = some (projectEnd g (analyzeState g) - m.duration) := by
    rw [hchar.2.1, hlf]; rfl
  have hef2 := analyzeState_ef hT hN hg
  rw [hchar.2.2.1, hls]
  show some (projectEnd g (analyzeState g) - m.duration
    - (analyzeState g m.id).early_start) = some 0
  congr 1
  omega

/-! ## Cyclic-graph helpers -/

theorem analyzeCPA_cyclic {g : List TaskNode} (h : isAcyclic g = false) :
    analyzeCPA g = initState := by
  unfold isAcyclic at h
  unfold analyzeCPA
  cases hk : kahnOrder g with
  | none => rfl
  | some ord => rw [hk] at h; simp at h

theorem listMaxI_all_zero {l : List Int} (h : ∀ x ∈ l, x = 0) : listMaxI l = 0 := by
  cases hl : l with
  | nil => rfl
  | cons y ys =>
    have := listMaxI_mem (l := y :: ys) (by simp)
    rw [← hl] at this ⊢
    exact h _ (hl ▸ this)

theorem cyclic_init_facts (g : List TaskNode) (h : isAcyclic g = false) :
    (∀ j, analyzeCPA g j = initSched) ∧
    getProjectDuration g (analyzeCPA g) = 0 := by
  have hc := analyzeCPA_cyclic h
  constructor
  · intro j; rw [hc]; rfl
  · rw [hc]
    unfold getProjectDuration
    by_cases hg : g.isEmpty
    · rw [if_pos hg]
    · rw [if_neg hg]
      apply listMaxI_all_zero
      intro x hx
      obtain ⟨t, _, hv⟩ := List.mem_map.mp hx
      rw [← hv]; rfl

/-! ## Claim theorems -/

/-- Claim C2 (confirmed): in the forward pass over any acyclic task graph,
a node with no effective predecessors gets `early_start = 0`, any other node
gets the maximum of its predecessors' `early_finish`, and every node gets
`early_finish = early_start + duration`; on the concrete A/B/C/D scenario
the computed times are A(0,2), B(2,5), C(2,3), D(5,9) with project
duration 9. -/
theorem claim2_forward_pass :
    (∀ (g : List TaskNode), TopoOK g = true → (ids g).Nodup →
      ∀ t ∈ g,
        (analyzeState g t.id).early_start =
          (if (effDeps g t).isEmpty then 0
           else listMaxI ((effDeps g t).map
             (fun p => (analyzeState g p).early_finish))) ∧
        (analyzeState g t.id).early_finish =
          (analyzeState g t.id).early_start + t.duration) ∧
    ((analyzeState gABCD "A").early_start = 0 ∧
     (analyzeState gABCD "A").early_finish = 2 ∧
     (analyzeState gABCD "B").early_start = 2 ∧
     (analyzeState gABCD "B").early_finish = 5 ∧
     (analyzeState gABCD "C").early_start = 2 ∧
     (analyzeState gABCD "C").early_finish = 3 ∧
     (analyzeState gABCD "D").early_start = 5 ∧
     (analyzeState gABCD "D").early_finish = 9 ∧
     getProjectDuration gABCD (analyzeState gABCD) = 9) := by
  constructor
  · intro g hT hN t ht
    obtain ⟨l₁, l₂, hg⟩ := List.append_of_mem ht
    exact ⟨analyzeState_es hT hN hg, analyzeState_ef hT hN hg⟩
  · refine ⟨by decide, by decide, by decide, by decide, by decide,
      by decide, by decide, by decide, by decide⟩

/-- Witness for C2 at the scenario graph and its node B. -/
theorem claim2_witness :
    (analyzeState gABCD "B").early_start =
      (if (effDeps gABCD ⟨"B", "B", 3, "r", ["A"]⟩).isEmpty then 0
       else listMaxI ((effDeps gABCD ⟨"B", "B", 3, "r", ["A"]⟩).map
         (fun p => (analyzeState gABCD p).early_finish))) ∧
    (analyzeState gABCD "B").early_finish =
      (analyzeState gABCD "B").early_start + 3 :=
  claim2_forward_pass.1 gABCD (by decide) (by decide)
    ⟨"B", "B", 3, "r", ["A"]⟩ (by decide)

/-- Claim C5 (confirmed): on any non-empty acyclic task graph with the
built graph's minimum duration of 1, every task ends with non-negative
slack and some task has slack exactly 0. -/
theorem claim5_slack :
    ∀ g : List TaskNode, TopoOK g = true → (ids g).Nodup → g ≠ [] →
      (∀ u ∈ g, 1 ≤ u.duration) →
      (∀ t ∈ g, ∃ v, (analyzeState g t.id).slack = some v ∧ 0 ≤ v) ∧
      (∃ t ∈ g, (analyzeState g t.id).slack = some 0) := by
  intro g hT hN hne hdur
  constructor
  · intro t ht
    exact analyzeState_slack_nonneg hT hN ht
  · obtain ⟨m, hm, hef⟩ := exists_ef_eq_pe hne
    exact ⟨m, hm, argmax_slack_zero hT hN hdur hm hef⟩

/-- Witness for C5 at the scenario graph and its node C. -/
theorem claim5_witness :
    (∃ v, (analyzeState gABCD "C").slack = some v ∧ 0 ≤ v) ∧
    (∃ t ∈ gABCD, (analyzeState gABCD t.id).slack = some 0) :=
  ⟨(claim5_slack gABCD (by decide) (by decide) (by decide) (by decide)).1
      ⟨"C", "C", 1, "r", ["A"]⟩ (by decide),
    (claim5_slack gABCD (by decide) (by decide) (by decide) (by decide)).2⟩

/-- Claim C10 (confirmed): on a cyclic graph the analyzer constructor does
not fail; both passes return early, every node keeps its initialized
schedule attributes, and the reported project duration is 0 — at this
interface a cyclic input looks exactly like a zero-duration schedule. -/
theorem claim10_cycle_silent :
    ∀ g : List TaskNode, isAcyclic g = false →
      (∀ j, analyzeCPA g j = initSched) ∧
      (∀ t ∈ g,
        (analyzeCPA g t.id).early_start = 0 ∧
        (analyzeCPA g t.id).early_finish = 0 ∧
        (analyzeCPA g t.id).late_start = none ∧
        (analyzeCPA g t.id).late_finish = none ∧
        (analyzeCPA g t.id).slack = some 0 ∧
        (analyzeCPA g t.id).is_critical = false) ∧
      getProjectDuration g (analyzeCPA g) = 0 := by
  intro g h
  have hf := cyclic_init_facts g h
  refine ⟨hf.1, ?_, hf.2⟩
  intro t _
  rw [hf.1 t.id]
  exact ⟨rfl, rfl, rfl, rfl, rfl, rfl⟩

/-- Witness for C10 at the two-node cycle. -/
theorem claim10_witness :
    analyzeCPA gCyc "A" = initSched ∧
    getProjectDuration gCyc (analyzeCPA gCyc) = 0 :=
  ⟨(claim10_cycle_silent gCyc (by decide)).1 "A",
    (claim10_cycle_silent gCyc (by decide)).2.2⟩

/-- Counterexample to C1 as stated: on the two-node dependency cycle the
ai_collab_optimizer analyzer raises nothing and produces exactly the
silent all-zero timing state the claim forbids, with project duration 0
and no cycle marker anywhere in the schedule state. -/
theorem claim1_counterexample :
    isAcyclic gCyc = false ∧
    analyzeCPA gCyc "A" = initSched ∧
    analyzeCPA gCyc "B" = initSched ∧
    (analyzeCPA gCyc "A").early_start = 0 ∧
    (analyzeCPA gCyc "A").early_finish = 0 ∧
    (analyzeCPA gCyc "B").early_finish = 0 ∧
    getProjectDuration gCyc (analyzeCPA gCyc) = 0 := by
  refine ⟨by decide, by decide, by decide, by decide, by decide, by decide,
    by decide⟩

/-- Claim C1 (corrected): only the ai_collab_optimizer3 `analyze_workflow`
yields an explicit cycle marker — on every cyclic task list its result has
`has_cycle = true` and an empty critical path (total time 0), never a
schedule.  The ai_collab_optimizer `CriticalPathAnalyzer`, by contrast,
silently leaves every node at its initialized zero state with project
duration 0. -/
theorem claim1_amended :
    (∀ ts : List Task3, isAcyclic3 ts = false →
      (analysis3 ts).has_cycle = true ∧
      (analysis3 ts).critical_path = [] ∧
      (analysis3 ts).total_time = 0) ∧
    (∀ g : List TaskNode, isAcyclic g = false →
      (∀ j, analyzeCPA g j = initSched) ∧
      getProjectDuration g (analyzeCPA g) = 0) := by
  constructor
  · intro ts h
    unfold isAcyclic3 at h
    unfold analysis3
    cases hk : kahnAux (edges3 ts) (ids3 ts).length (ids3 ts) with
    | none => exact ⟨rfl, rfl, rfl⟩
    | some ord => rw [hk] at h; simp at h
  · intro g h
    exact cyclic_init_facts g h

/-- Witness for the amended C1 at concrete cyclic inputs. -/
theorem claim1_witness :
    ((analysis3 tasks3Cyc).has_cycle = true ∧
     (analysis3 tasks3Cyc).critical_path = [] ∧
     (analysis3 tasks3Cyc).total_time = 0) ∧
    analyzeCPA gCyc "A" = initSched ∧
    getProjectDuration gCyc (analyzeCPA gCyc) = 0 :=
  ⟨claim1_amended.1 tasks3Cyc (by decide),
    (claim1_amended.2 gCyc (by decide)).1 "A",
    (claim1_amended.2 gCyc (by decide)).2⟩

/-! ## Duration normalization (C8) -/

theorem max_one_ratTrunc (q : ℚ) : max 1 (ratTrunc q) = max 1 ⌊q⌋ := by
  unfold ratTrunc
  by_cases h : 0 ≤ q
  · rw [if_pos h]
  · rw [if_neg h]
    have hq : q ≤ 0 := le_of_lt (not_le.mp h)
    have h1 : ⌈q⌉ ≤ 0 := Int.ceil_le.mpr (by exact_mod_cast hq)
    have h2 : ⌊q⌋ ≤ 0 := Int.floor_nonpos hq
    rw [max_eq_left (h1.trans (by norm_num)), max_eq_left (h2.trans (by norm_num))]

/-- Claim C8 (confirmed): when the duration of a raw record is sourced from
a days-denominated field it is multiplied by the workday factor 8, floored
to an integer and clamped to a minimum of 1; consequently every node of the
built graph carries an integer duration of at least 1. -/
theorem claim8_duration :
    (∀ r : RawTask, r.durationDays.isSome = true ∨ r.durationField.isSome = true →
      (buildNode r).duration = max 1 ⌊rawDur r * 8⌋) ∧
    (∀ rs : List RawTask, ∀ t ∈ buildNodes rs, 1 ≤ t.duration) := by
  constructor
  · intro r h
    show max 1 (nodeDuration r) = max 1 ⌊rawDur r * 8⌋
    unfold nodeDuration
    rw [if_pos (by rcases h with h | h <;> simp [h])]
    rw [qmul_eq]
    exact max_one_ratTrunc (rawDur r * 8)
  · intro rs t ht
    obtain ⟨r, _, hr⟩ := List.mem_map.mp ht
    rw [← hr]
    exact le_max_left 1 (nodeDuration r)

/-- Witness for C8 at a record with `Duration (days) = 2`. -/
theorem claim8_witness :
    ((rawDays.durationDays.isSome = true ∨ rawDays.durationField.isSome = true) ∧
      (buildNode rawDays).duration = max 1 ⌊rawDur rawDays * 8⌋) ∧
    1 ≤ (buildNode rawDays).duration :=
  ⟨⟨Or.inl rfl, claim8_duration.1 rawDays (Or.inl rfl)⟩,
    claim8_duration.2 [rawDays] (buildNode rawDays) (by decide)⟩

end GenAI

namespace GenAI

/-! ## Critical-path extraction (C7) -/

/-- Counterexample to C7 as stated: two independent equal tasks inserted in
the order B, A are both critical with equal `early_start`, and the
extraction returns them in node-insertion order [B, A], not in ascending id
order [A, B]. -/
theorem claim7_counterexample :
    (analyzeState gBA "A").early_start = 0 ∧
    (analyzeState gBA "B").early_start = 0 ∧
    (analyzeState gBA "A").is_critical = true ∧
    (analyzeState gBA "B").is_critical = true ∧
    (getCriticalPath gBA (analyzeState gBA)).map (·.id) = ["B", "A"] ∧
    ["B", "A"] ≠ ["A", "B"] := by
  refine ⟨by decide, by decide, by decide, by decide, by decide, by decide⟩

/-- Claim C7 (corrected): the extraction returns exactly the records of the
nodes flagged critical, in ascending `early_start` order; equal
`early_start` values keep the graph's node-insertion order (Python's
`sorted` is stable) — they are NOT re-ordered by task id. -/
theorem claim7_amended :
    ∀ g : List TaskNode, TopoOK g = true → (ids g).Nodup →
      (∀ e, e ∈ getCriticalPath g (analyzeState g) ↔
        ∃ t ∈ g, (analyzeState g t.id).is_critical = true ∧
          e = cpEntry (analyzeState g) t) ∧
      List.Pairwise (fun a b : CPEntry => a.early_start ≤ b.early_start)
        (getCriticalPath g (analyzeState g)) ∧
      (∀ t u : TaskNode,
        (analyzeState g t.id).early_start ≤ (analyzeState g u.id).early_start →
        List.Sublist [t, u]
          (g.filter (fun v => (analyzeState g v.id).is_critical)) →
        List.Sublist [cpEntry (analyzeState g) t, cpEntry (analyzeState g) u]
          (getCriticalPath g (analyzeState g))) := by
  intro g _ _
  haveI hT : IsTotal TaskNode
      (fun a b => (analyzeState g a.id).early_start ≤ (analyzeState g b.id).early_start) :=
    ⟨fun a b => le_total _ _⟩
  haveI hTr : IsTrans TaskNode
      (fun a b => (analyzeState g a.id).early_start ≤ (analyzeState g b.id).early_start) :=
    ⟨fun _ _ _ hab hbc => le_trans hab hbc⟩
  refine ⟨?_, ?_, ?_⟩
  · intro e
    unfold getCriticalPath
    rw [List.mem_map]
    constructor
    · rintro ⟨t, htmem, hte⟩
      have hmem := (List.perm_insertionSort _ _).mem_iff.mp htmem
      have hf := List.mem_filter.mp hmem
      exact ⟨t, hf.1, hf.2, hte.symm⟩
    · rintro ⟨t, htg, hcrit, he⟩
      refine ⟨t, ?_, he.symm⟩
      exact (List.perm_insertionSort _ _).mem_iff.mpr
        (List.mem_filter.mpr ⟨htg, hcrit⟩)
  · unfold getCriticalPath
    have hs := List.sorted_insertionSort
      (fun a b : TaskNode =>
        (analyzeState g a.id).early_start ≤ (analyzeState g b.id).early_start)
      (g.filter (fun v => (analyzeState g v.id).is_critical))
    exact List.Pairwise.map _ (fun a b hab => hab) hs
  · intro t u hle hsub
    unfold getCriticalPath
    have h := List.pair_sublist_insertionSort
      (r := fun a b => (analyzeState g a.id).early_start ≤ (analyzeState g b.id).early_start)
      hle hsub
    exact h.map (cpEntry (analyzeState g))

/-- Witness for the amended C7: at the tie graph, the record of node B is a
member of the extracted critical path. -/
theorem claim7_witness :
    cpEntry (analyzeState gBA) ⟨"B", "B", 2, "r", []⟩ ∈
      getCriticalPath gBA (analyzeState gBA) :=
  ((claim7_amended gBA (by decide) (by decide)).1 _).mpr
    ⟨⟨"B", "B", 2, "r", []⟩, by decide, by decide, rfl⟩

end GenAI

namespace GenAI

/-! ## Bottleneck identification (C3) -/

/-- Counterexample to C3 as stated: on two parallel chains with threshold 1,
P and X are both bottlenecks with impact 2, P with slack 9 and X with slack
0; ascending-slack tie-breaking would order them [X, P], but the executed
sort (`sorted(..., key=impact, reverse=True)`, stable; the `(-impact,
slack)` sort is dead code after the `return`) keeps insertion order
[P, X]. -/
theorem claim3_counterexample :
    (identifyBottlenecks gTie (analyzeState gTie) 1).map (·.id) = ["P", "X"] ∧
    (identifyBottlenecks gTie (analyzeState gTie) 1).map (·.impact) = [2, 2] ∧
    (identifyBottlenecks gTie (analyzeState gTie) 1).map (·.slack)
      = [some 9, some 0] ∧
    ["P", "X"] ≠ ["X", "P"] := by
  refine ⟨by decide, by decide, by decide, by decide⟩

/-- Claim C3 (corrected): for a slack-threshold fraction t the result
consists of exactly the nodes with positive duration, slack at most
t * project_duration, and more than one descendant, ranked descending by
impact; equal-impact entries keep node-insertion order (the ascending-slack
tie-break in the source is unreachable).  On the A/B/C/D scenario with
threshold 1/5, A (slack 0, impact 3) is the only bottleneck and B (impact
1) is excluded. -/
theorem claim3_amended :
    (∀ (g : List TaskNode) (θ : ℚ),
      (∀ b, b ∈ identifyBottlenecks g (analyzeState g) θ ↔
        ∃ t ∈ g,
          (0 < t.duration ∧
           slackLeQ (analyzeState g t.id).slack
             (qmul ((listMaxI (g.map
               (fun u => (analyzeState g u.id).early_finish)) : Int) : ℚ) θ) = true ∧
           1 < impact g t.id) ∧
          b = bEntry g (analyzeState g) t) ∧
      List.Pairwise (fun a b : BEntry => b.impact ≤ a.impact)
        (identifyBottlenecks g (analyzeState g) θ) ∧
      (∀ a b : BEntry, b.impact ≤ a.impact →
        List.Sublist [a, b]
          ((g.filter (fun t =>
            decide (0 < t.duration) &&
            slackLeQ (analyzeState g t.id).slack
              (qmul ((listMaxI (g.map
                (fun u => (analyzeState g u.id).early_finish)) : Int) : ℚ) θ) &&
            decide (1 < impact g t.id))).map (bEntry g (analyzeState g))) →
        List.Sublist [a, b] (identifyBottlenecks g (analyzeState g) θ))) ∧
    ((identifyBottlenecks gABCD (analyzeState gABCD) (mkRat 1 5)).map (·.id)
        = ["A"] ∧
     impact gABCD "A" = 3 ∧
     (analyzeState gABCD "A").slack = some 0 ∧
     impact gABCD "B" = 1 ∧
     (analyzeState gABCD "B").slack = some 0) := by
  constructor
  · intro g θ
    haveI : IsTotal BEntry (fun a b => b.impact ≤ a.impact) :=
      ⟨fun a b => le_total b.impact a.impact⟩
    haveI : IsTrans BEntry (fun a b => b.impact ≤ a.impact) :=
      ⟨fun _ _ _ hab hbc => le_trans hbc hab⟩
    by_cases hg : g.isEmpty
    · have hgnil : g = [] := List.isEmpty_iff.mp hg
      subst hgnil
      refine ⟨?_, ?_, ?_⟩
      · intro b
        simp [identifyBottlenecks]
      · simp [identifyBottlenecks]
      · intro a b _ hsub
        simp at hsub
    · refine ⟨?_, ?_, ?_⟩
      · intro b
        rw [identifyBottlenecks, if_neg (by simp [hg])]
        rw [(List.perm_insertionSort _ _).mem_iff, List.mem_map]
        constructor
        · rintro ⟨t, htmem, hte⟩
          have hf := List.mem_filter.mp htmem
          have hp := hf.2
          simp only [Bool.and_eq_true, decide_eq_true_eq] at hp
          exact ⟨t, hf.1, ⟨hp.1.1, hp.1.2, hp.2⟩, hte.symm⟩
        · rintro ⟨t, htg, ⟨h1, h2, h3⟩, he⟩
          refine ⟨t, List.mem_filter.mpr ⟨htg, ?_⟩, he.symm⟩
          simp only [Bool.and_eq_true, decide_eq_true_eq]
          exact ⟨⟨h1, h2⟩, h3⟩
      · rw [identifyBottlenecks, if_neg (by simp [hg])]
        exact List.sorted_insertionSort _ _
      · intro a b hab hsub
        rw [identifyBottlenecks, if_neg (by simp [hg])]
        exact List.pair_sublist_insertionSort
          (r := fun a b : BEntry => b.impact ≤ a.impact) hab hsub
  · refine ⟨by decide, by decide, by decide, by decide, by decide⟩

/-- Witness for the amended C3: at the scenario graph with threshold 1/5,
the record of node A is a member of the bottleneck list. -/
theorem claim3_witness :
    bEntry gABCD (analyzeState gABCD) ⟨"A", "A", 2, "r", []⟩ ∈
      identifyBottlenecks gABCD (analyzeState gABCD) (mkRat 1 5) :=
  ((claim3_amended.1 gABCD (mkRat 1 5)).1 _).mpr
    ⟨⟨"A", "A", 2, "r", []⟩, by decide, ⟨by decide, by decide, by decide⟩, rfl⟩

end GenAI

namespace GenAI

/-! ## Idempotence of the passes (C9) -/

theorem sched_ext {x y : Sched}
    (h1 : x.early_start = y.early_start)
    (h2 : x.early_finish = y.early_finish)
    (h3 : x.late_start = y.late_start)
    (h4 : x.late_finish = y.late_finish)
    (h5 : x.slack = y.slack)
    (h6 : x.is_critical = y.is_critical) : x = y := by
  cases x; cases y
  simp_all

theorem forwardPass_not_mem {g : List TaskNode} {s : SMap} {j : String}
    (hj : j ∉ ids g) : forwardPass g s j = s j :=
  foldl_fwd_not_mem g g s j hj

theorem backwardPass_not_mem {g : List TaskNode} {s : SMap} {j : String}
    (hj : j ∉ ids g) : backwardPass g s j = s j := by
  by_cases hg : g.isEmpty
  · simp [backwardPass, hg]
  · rw [backwardPass, if_neg hg]
    have h1 : j ∉ ids g.reverse := by
      simpa [ids, List.mem_reverse] using hj
    rw [foldl_bwd_not_mem g _ g.reverse _ j h1]
    unfold clearLate
    rw [if_neg (by simpa using hj)]

theorem succIds_eq_nil_last {g l₁ : List TaskNode} {t : TaskNode}
    (hT : TopoOK g = true) (hN : (ids g).Nodup) (hg : g = l₁ ++ t :: []) :
    succIds g t.id = [] := by
  rw [List.eq_nil_iff_forall_not_mem]
  intro x hx
  obtain ⟨u, hu, hdep, _⟩ := succIds_spec.mp hx
  exact absurd (topo_succ_after hT hN hg u hu hdep) (List.not_mem_nil u)

theorem fwd_indep_aux {g : List TaskNode} (hT : TopoOK g = true)
    (hN : (ids g).Nodup) (s s₂ : SMap) :
    ∀ n : Nat, ∀ l₁ t l₂, g = l₁ ++ t :: l₂ → l₁.length ≤ n →
      (forwardPass g s t.id).early_start = (forwardPass g s₂ t.id).early_start ∧
      (forwardPass g s t.id).early_finish = (forwardPass g s₂ t.id).early_finish := by
  intro n
  induction n with
  | zero =>
    intro l₁ t l₂ hg hlen
    have hl : l₁ = [] := List.length_eq_zero.mp (Nat.le_zero.mp hlen)
    subst hl
    have hE : effDeps g t = [] := by
      rw [List.eq_nil_iff_forall_not_mem]
      intro d hd
      have hmem := topo_deps_before hT hg d hd
      simp [ids] at hmem
    have h1 := forwardPass_char s hT hN hg
    have h2 := forwardPass_char s₂ hT hN hg
    have hes : (forwardPass g s t.id).early_start
        = (forwardPass g s₂ t.id).early_start := by
      rw [h1.1, h2.1, hE]
      simp
    exact ⟨hes, by rw [h1.2.1, h2.2.1, hes]⟩
  | succ n ih =>
    intro l₁ t l₂ hg hlen
    have h1 := forwardPass_char s hT hN hg
    have h2 := forwardPass_char s₂ hT hN hg
    have hmap : (effDeps g t).map (fun p => (forwardPass g s p).early_finish)
        = (effDeps g t).map (fun p => (forwardPass g s₂ p).early_finish) := by
      apply List.map_congr_left
      intro p hp
      have hpl := topo_deps_before hT hg p hp
      obtain ⟨u, hul, hup⟩ := List.mem_map.mp hpl
      obtain ⟨a, b, hab⟩ := List.append_of_mem hul
      have hg2 : g = a ++ u :: (b ++ t :: l₂) := by
        rw [hg, hab]; simp
      have halen : a.length ≤ n := by
        have : l₁.length = a.length + 1 + b.length := by
          rw [hab]; simp [List.length_append]; omega
        omega
      have hu2 := ih a u (b ++ t :: l₂) hg2 halen
      rw [← hup]
      exact hu2.2
    have hes : (forwardPass g s t.id).early_start
        = (forwardPass g s₂ t.id).early_start := by
      rw [h1.1, h2.1, hmap]
    exact ⟨hes, by rw [h1.2.1, h2.2.1, hes]⟩

theorem bwd_indep_at {g l₁ l₂ : List TaskNode} {t : TaskNode} {s s₂ : SMap}
    (hT : TopoOK g = true) (hN : (ids g).Nodup) (hg : g = l₁ ++ t :: l₂)
    (hes : ∀ j, (s j).early_start = (s₂ j).early_start)
    (hef : ∀ j, (s j).early_finish = (s₂ j).early_finish)
    (hLS : ∀ x ∈ succIds g t.id,
      (backwardPass g s x).late_start = (backwardPass g s₂ x).late_start) :
    backwardPass g s t.id = backwardPass g s₂ t.id := by
  have hpe : projectEnd g s = projectEnd g s₂ := by
    unfold projectEnd
    congr 1
    apply List.map_congr_left
    intro u _
    exact hef u.id
  have h1 := backwardPass_char s hT hN hg
  have h2 := backwardPass_char s₂ hT hN hg
  have hlf : (backwardPass g s t.id).late_finish
      = (backwardPass g s₂ t.id).late_finish := by
    rw [h1.1, h2.1, hpe]
    by_cases hS : (succIds g t.id).isEmpty
    · rw [if_pos hS, if_pos hS]
    · rw [if_neg hS, if_neg hS]
      congr 1
      exact List.map_congr_left hLS
  have hls : (backwardPass g s t.id).late_start
      = (backwardPass g s₂ t.id).late_start := by
    rw [h1.2.1, h2.2.1, hlf]
  have hsl : (backwardPass g s t.id).slack
      = (backwardPass g s₂ t.id).slack := by
    rw [h1.2.2.1, h2.2.2.1, hls, hes t.id]
  have hcr : (backwardPass g s t.id).is_critical
      = (backwardPass g s₂ t.id).is_critical := by
    rw [h1.2.2.2, h2.2.2.2, hsl]
  have he1 := backwardPass_es_ef g s t.id
  have he2 := backwardPass_es_ef g s₂ t.id
  exact sched_ext (by rw [he1.1, he2.1, hes t.id])
    (by rw [he1.2, he2.2, hef t.id]) hls hlf hsl hcr

theorem bwd_indep_aux {g : List TaskNode} (hT : TopoOK g = true)
    (hN : (ids g).Nodup) (s s₂ : SMap)
    (hes : ∀ j, (s j).early_start = (s₂ j).early_start)
    (hef : ∀ j, (s j).early_finish = (s₂ j).early_finish) :
    ∀ n : Nat, ∀ l₁ t l₂, g = l₁ ++ t :: l₂ → l₂.length ≤ n →
      backwardPass g s t.id = backwardPass g s₂ t.id := by
  intro n
  induction n with
  | zero =>
    intro l₁ t l₂ hg hlen
    have hl : l₂ = [] := List.length_eq_zero.mp (Nat.le_zero.mp hlen)
    subst hl
    refine bwd_indep_at hT hN hg hes hef ?_
    rw [succIds_eq_nil_last hT hN hg]
    intro x hx
    cases hx
  | succ n ih =>
    intro l₁ t l₂ hg hlen
    refine bwd_indep_at hT hN hg hes hef ?_
    intro x hx
    obtain ⟨u, hu, hdep, hux⟩ := succIds_spec.mp hx
    have hul₂ : u ∈ l₂ := topo_succ_after hT hN hg u hu hdep
    obtain ⟨a, b, hab⟩ := List.append_of_mem hul₂
    have hg2 : g = (l₁ ++ t :: a) ++ u :: b := by
      rw [hg, hab]; simp
    have hblen : b.length ≤ n := by
      have : l₂.length = a.length + 1 + b.length := by
        rw [hab]; simp [List.length_append]; omega
      omega
    have := ih (l₁ ++ t :: a) u b hg2 hblen
    rw [← hux, this]

/-- Claim C9 (confirmed): running the two passes a second time on the
analyzed (unmodified) graph reproduces the very same ScheduleEntry values
at every node. -/
theorem claim9_idempotent :
    ∀ g : List TaskNode, TopoOK g = true → (ids g).Nodup →
      ∀ j, runPasses g (analyzeState g) j = analyzeState g j := by
  intro g hT hN j
  have hesef : ∀ i,
      (forwardPass g (analyzeState g) i).early_start
        = (forwardPass g initState i).early_start ∧
      (forwardPass g (analyzeState g) i).early_finish
        = (forwardPass g initState i).early_finish := by
    intro i
    by_cases hi : i ∈ ids g
    · obtain ⟨u, hu, hui⟩ := List.mem_map.mp hi
      obtain ⟨l₁, l₂, hg⟩ := List.append_of_mem hu
      rw [← hui]
      exact fwd_indep_aux hT hN (analyzeState g) initState l₁.length l₁ u l₂ hg
        (le_refl _)
    · have h1 : forwardPass g (analyzeState g) i = analyzeState g i :=
        forwardPass_not_mem hi
      have h3 : analyzeState g i = forwardPass g initState i :=
        backwardPass_not_mem hi
      rw [h1, h3]
      exact ⟨rfl, rfl⟩
  by_cases hj : j ∈ ids g
  · obtain ⟨u, hu, huj⟩ := List.mem_map.mp hj
    obtain ⟨l₁, l₂, hg⟩ := List.append_of_mem hu
    rw [← huj]
    exact bwd_indep_aux hT hN (forwardPass g (analyzeState g))
      (forwardPass g initState) (fun i => (hesef i).1) (fun i => (hesef i).2)
      l₂.length l₁ u l₂ hg (le_refl _)
  · show backwardPass g (forwardPass g (analyzeState g)) j = analyzeState g j
    rw [backwardPass_not_mem hj, forwardPass_not_mem hj]

/-- Witness for C9 at the scenario graph. -/
theorem claim9_witness :
    runPasses gABCD (analyzeState gABCD) "B" = analyzeState gABCD "B" :=
  claim9_idempotent gABCD (by decide) (by decide) "B"

end GenAI

namespace GenAI

/-! ## The critical chain (C4) -/

theorem esub_eq_some {a : Option Int} {d v : Int} (h : esub a d = some v) :
    a = some (v + d) := by
  cases a with
  | none => simp [esub] at h
  | some w =>
    simp [esub] at h
    exact congrArg some (by omega)

theorem slack_zero_ls {g l₁ l₂ : List TaskNode} {t : TaskNode}
    (hT : TopoOK g = true) (hN : (ids g).Nodup) (hg : g = l₁ ++ t :: l₂)
    (h : (analyzeState g t.id).slack = some 0) :
    (analyzeState g t.id).late_start = some (analyzeState g t.id).early_start := by
  have hchar := analyzeState_late hT hN hg
  have h2 := hchar.2.2.1
  rw [h] at h2
  have h3 := esub_eq_some h2.symm
  simpa using h3

theorem crit_chain_aux {g : List TaskNode} (hT : TopoOK g = true)
    (hN : (ids g).Nodup) :
    ∀ n : Nat, ∀ l₁ t l₂, g = l₁ ++ t :: l₂ → l₁.length ≤ n →
      (analyzeState g t.id).slack = some 0 →
      ∃ chain : List TaskNode, chain ≠ [] ∧
        (∀ c ∈ chain, c ∈ g ∧ (analyzeState g c.id).slack = some 0) ∧
        List.Chain' (fun a b => a.id ∈ effDeps g b ∧
          (analyzeState g a.id).early_finish = (analyzeState g b.id).early_start)
          chain ∧
        chain.getLast? = some t ∧
        (∃ c₀, chain.head? = some c₀ ∧ (analyzeState g c₀.id).early_start = 0) ∧
        (chain.map (·.duration)).sum = (analyzeState g t.id).early_finish := by
  have base : ∀ l₁ t l₂, g = l₁ ++ t :: l₂ → effDeps g t = [] →
      (analyzeState g t.id).slack = some 0 →
      ∃ chain : List TaskNode, chain ≠ [] ∧
        (∀ c ∈ chain, c ∈ g ∧ (analyzeState g c.id).slack = some 0) ∧
        List.Chain' (fun a b => a.id ∈ effDeps g b ∧
          (analyzeState g a.id).early_finish = (analyzeState g b.id).early_start)
          chain ∧
        chain.getLast? = some t ∧
        (∃ c₀, chain.head? = some c₀ ∧ (analyzeState g c₀.id).early_start = 0) ∧
        (chain.map (·.duration)).sum = (analyzeState g t.id).early_finish := by
    intro l₁ t l₂ hg hE hsl
    have htg : t ∈ g := by rw [hg]; simp
    have hes : (analyzeState g t.id).early_start = 0 := by
      rw [analyzeState_es hT hN hg, if_pos (by rw [hE]; rfl)]
    have hef := analyzeState_ef hT hN hg
    refine ⟨[t], by simp, ?_, List.chain'_singleton t, rfl, ⟨t, rfl, hes⟩, ?_⟩
    · intro c hc
      rw [List.mem_singleton.mp hc]
      exact ⟨htg, hsl⟩
    · simp [hef, hes]
  intro n
  induction n with
  | zero =>
    intro l₁ t l₂ hg hlen hsl
    have hl : l₁ = [] := List.length_eq_zero.mp (Nat.le_zero.mp hlen)
    subst hl
    have hE : effDeps g t = [] := by
      rw [List.eq_nil_iff_forall_not_mem]
      intro d hd
      have hmem := topo_deps_before hT hg d hd
      simp [ids] at hmem
    exact base [] t l₂ hg hE hsl
  | succ n ih =>
    intro l₁ t l₂ hg hlen hsl
    by_cases hE : effDeps g t = []
    · exact base l₁ t l₂ hg hE hsl
    · have hne : ¬(effDeps g t).isEmpty := by
        rw [List.isEmpty_iff]
        exact hE
      have htg : t ∈ g := by rw [hg]; simp
      obtain ⟨p, hp, hattain⟩ := analyzeState_es_attained hT hN hg hne
      have hpl := topo_deps_before hT hg p hp
      obtain ⟨u, hul, hup⟩ := List.mem_map.mp hpl
      obtain ⟨a, b, hab⟩ := List.append_of_mem hul
      have hg2 : g = a ++ u :: (b ++ t :: l₂) := by
        rw [hg, hab]; simp
      have halen : a.length ≤ n := by
        have : l₁.length = a.length + 1 + b.length := by
          rw [hab]; simp [List.length_append]; omega
        omega
      have hug : u ∈ g := by rw [hg2]; simp
      -- u is critical
      have hlst := slack_zero_ls hT hN hg hsl
      have hsucc : t.id ∈ succIds g u.id := by
        apply succIds_spec.mpr
        exact ⟨t, htg, by rw [hup]; exact hp, rfl⟩
      have hcharu := analyzeState_late hT hN hg2
      have hSne : ¬(succIds g u.id).isEmpty := by
        rw [List.isEmpty_iff]
        intro h
        rw [h] at hsucc
        cases hsucc
      have hlfu : (analyzeState g u.id).late_finish
          = listMinE ((succIds g u.id).map
            (fun x => (analyzeState g x).late_start)) := by
        rw [hcharu.1, if_neg hSne]
      have hlemem : eLE (analyzeState g u.id).late_finish
          ((analyzeState g t.id).late_start) := by
        rw [hlfu]
        exact listMinE_eLE_of_mem (List.mem_map_of_mem _ hsucc)
      obtain ⟨vu, hvu, hvuge⟩ := analyzeState_ls_ge_es hT hN hug
      have hlsu := hcharu.2.1
      have hlfu2 : (analyzeState g u.id).late_finish = some (vu + u.duration) := by
        apply esub_eq_some
        rw [← hlsu]
        exact hvu
      have hefu := analyzeState_ef hT hN hg2
      have hesteq : (analyzeState g t.id).early_start
          = (analyzeState g u.id).early_finish := by
        rw [hattain, hup]
      have hvle : vu + u.duration ≤ (analyzeState g t.id).early_start := by
        have h1 := hlemem
        rw [hlfu2, hlst] at h1
        simpa [eLE] using h1
      have hvu_eq : vu = (analyzeState g u.id).early_start := by omega
      have hslu : (analyzeState g u.id).slack = some 0 := by
        rw [hcharu.2.2.1, hvu, hvu_eq]
        simp [esub]
      obtain ⟨C, hCne, hCmem, hCchain, hClast, hChead, hCsum⟩ :=
        ih a u (b ++ t :: l₂) hg2 halen hslu
      refine ⟨C ++ [t], by simp, ?_, ?_, ?_, ?_, ?_⟩
      · intro c hc
        rcases List.mem_append.mp hc with h | h
        · exact hCmem c h
        · rw [List.mem_singleton.mp h]
          exact ⟨htg, hsl⟩
      · rw [List.chain'_append]
        refine ⟨hCchain, List.chain'_singleton t, ?_⟩
        intro x hx y hy
        rw [hClast] at hx
        cases hx
        cases hy
        constructor
        · rw [hup]; exact hp
        · rw [hesteq]
      · exact List.getLast?_concat C
      · obtain ⟨c₀, hc₀, hc₀es⟩ := hChead
        refine ⟨c₀, ?_, hc₀es⟩
        cases C with
        | nil => exact absurd rfl hCne
        | cons x xs => exact hc₀
      · rw [List.map_append, List.sum_append, hCsum]
        have heft := analyzeState_ef hT hN hg
        simp
        omega

/-- Counterexample to C4 as stated: in a diamond with two equal-length
branches every node is critical, so the durations on the extracted critical
path sum to 12 while the project duration is 9. -/
theorem claim4_counterexample :
    ((getCriticalPath gDia (analyzeState gDia)).map (·.duration)).sum = 12 ∧
    getProjectDuration gDia (analyzeState gDia) = 9 ∧
    ((getCriticalPath gDia (analyzeState gDia)).map (·.duration)).sum ≠
      getProjectDuration gDia (analyzeState gDia) := by
  refine ⟨by decide, by decide, by decide⟩

/-- Claim C4 (corrected): in every non-empty acyclic task graph some chain
of critical tasks — consecutive tasks joined by a dependency edge with the
successor starting exactly when its predecessor finishes, beginning at time
0 and ending at the project end — has durations summing exactly to the
project duration.  The sum over ALL critical tasks can exceed it when
parallel critical branches exist. -/
theorem claim4_amended :
    ∀ g : List TaskNode, TopoOK g = true → (ids g).Nodup → g ≠ [] →
      (∀ u ∈ g, 1 ≤ u.duration) →
      ∃ chain : List TaskNode, chain ≠ [] ∧
        (∀ c ∈ chain, c ∈ g ∧ (analyzeState g c.id).is_critical = true) ∧
        List.Chain' (fun a b => a.id ∈ effDeps g b ∧
          (analyzeState g a.id).early_finish = (analyzeState g b.id).early_start)
          chain ∧
        (∃ c₀, chain.head? = some c₀ ∧ (analyzeState g c₀.id).early_start = 0) ∧
        (∃ cl, chain.getLast? = some cl ∧
          (analyzeState g cl.id).early_finish = projectEnd g (analyzeState g)) ∧
        (chain.map (·.duration)).sum = getProjectDuration g (analyzeState g) := by
  intro g hT hN hgne hdur
  obtain ⟨m, hm, hef⟩ := exists_ef_eq_pe hgne
  have hslm := argmax_slack_zero hT hN hdur hm hef
  obtain ⟨l₁, l₂, hg⟩ := List.append_of_mem hm
  obtain ⟨chain, hne, hmem, hchain, hlast, hhead, hsum⟩ :=
    crit_chain_aux hT hN l₁.length l₁ m l₂ hg (le_refl _) hslm
  refine ⟨chain, hne, ?_, hchain, hhead, ⟨m, hlast, hef⟩, ?_⟩
  · intro c hc
    obtain ⟨hcg, hcsl⟩ := hmem c hc
    obtain ⟨p₁, p₂, hpg⟩ := List.append_of_mem hcg
    exact ⟨hcg, (analyzeState_crit_iff hT hN hpg).mpr hcsl⟩
  · rw [hsum, hef]
    unfold getProjectDuration
    rw [if_neg (by simpa [List.isEmpty_iff] using hgne)]

/-- Witness for the amended C4 at the scenario graph. -/
theorem claim4_witness :
    ∃ chain : List TaskNode, chain ≠ [] ∧
      (∀ c ∈ chain, c ∈ gABCD ∧ (analyzeState gABCD c.id).is_critical = true) ∧
      List.Chain' (fun a b => a.id ∈ effDeps gABCD b ∧
        (analyzeState gABCD a.id).early_finish
          = (analyzeState gABCD b.id).early_start) chain ∧
      (∃ c₀, chain.head? = some c₀ ∧ (analyzeState gABCD c₀.id).early_start = 0) ∧
      (∃ cl, chain.getLast? = some cl ∧
        (analyzeState gABCD cl.id).early_finish
          = projectEnd gABCD (analyzeState gABCD)) ∧
      (chain.map (·.duration)).sum
        = getProjectDuration gABCD (analyzeState gABCD) :=
  claim4_amended gABCD (by decide) (by decide) (by decide) (by decide)

end GenAI

namespace GenAI

/-! ## Simple-path enumeration (C6) -/

theorem succIds_sub {g : List TaskNode} {i x : String} (h : x ∈ succIds g i) :
    x ∈ ids g := by
  obtain ⟨u, hu, _, hux⟩ := succIds_spec.mp h
  exact mem_ids.mpr ⟨u, hu, hux⟩

theorem not_self_succ {g : List TaskNode} {x : String} : x ∉ succIds g x := by
  intro h
  obtain ⟨u, _, hdep, hux⟩ := succIds_spec.mp h
  exact (effDeps_ne_self hdep) hux.symm

theorem nodup_head_last {p : List String} {s : String} (h1 : p.head? = some s)
    (h2 : p.getLast? = some s) (h3 : p.Nodup) : p = [s] := by
  cases p with
  | nil => cases h1
  | cons a q =>
    have ha : a = s := by simpa using h1
    subst ha
    cases q with
    | nil => rfl
    | cons b r =>
      exfalso
      have hl : (b :: r).getLast? = some a := by
        rw [← List.getLast?_cons_cons]
        exact h2
      have hmem : a ∈ b :: r := List.mem_of_getLast?_eq_some hl
      exact (List.nodup_cons.mp h3).1 hmem

theorem chain_all_mem {g : List TaskNode} :
    ∀ (p : List String) (a : String), a ∈ ids g →
      List.Chain' (fun x y => y ∈ succIds g x) (a :: p) →
      ∀ x ∈ a :: p, x ∈ ids g := by
  intro p
  induction p with
  | nil =>
    intro a ha _ x hx
    rw [List.mem_singleton.mp hx]
    exact ha
  | cons b q ih =>
    intro a ha hchain x hx
    have hc := List.chain'_cons.mp hchain
    have hb : b ∈ ids g := succIds_sub hc.1
    rcases List.mem_cons.mp hx with h | h
    · rw [h]; exact ha
    · exact ih b hb hc.2 x h

end GenAI

namespace GenAI

theorem spAux_iff {g : List TaskNode} {tgt : String} :
    ∀ (fuel : Nat) (cur : String) (visited : List String), cur ∉ visited →
      ∀ p, p ∈ spAux g tgt fuel cur visited ↔
        (p.head? = some cur ∧ p.getLast? = some tgt ∧
         List.Chain' (fun a b => b ∈ succIds g a) p ∧ p.Nodup ∧
         (∀ x ∈ p, x ∉ visited) ∧ p.length ≤ fuel) := by
  intro fuel
  induction fuel with
  | zero =>
    intro cur visited _ p
    simp only [spAux, List.not_mem_nil, false_iff]
    rintro ⟨h1, _, _, _, _, h6⟩
    cases p with
    | nil => cases h1
    | cons a q => simp at h6
  | succ fuel ih =>
    intro cur visited hcv p
    by_cases hct : cur = tgt
    · subst hct
      rw [spAux, if_pos rfl]
      constructor
      · intro hp
        have hp1 : p = [cur] := by simpa using hp
        subst hp1
        refine ⟨rfl, rfl, List.chain'_singleton cur, List.nodup_singleton cur,
          ?_, by simp⟩
        intro x hx
        rw [List.mem_singleton.mp hx]
        exact hcv
      · rintro ⟨h1, h2, _, h4, _, _⟩
        have := nodup_head_last h1 h2 h4
        simp [this]
    · rw [spAux, if_neg hct, List.mem_flatMap]
      constructor
      · rintro ⟨n, hn, hpn⟩
        have hnf := List.mem_filter.mp hn
        have hnsucc : n ∈ succIds g cur := hnf.1
        have hnv : n ∉ visited := by simpa using hnf.2
        obtain ⟨q, hq, hpq⟩ := List.mem_map.mp hpn
        have hncv : n ∉ cur :: visited := by
          simp only [List.mem_cons]
          rintro (h | h)
          · exact not_self_succ (h ▸ hnsucc)
          · exact hnv h
        obtain ⟨q1, q2, q3, q4, q5, q6⟩ := (ih n (cur :: visited) hncv q).mp hq
        subst hpq
        have hqne : q ≠ [] := by
          intro h; rw [h] at q1; cases q1
        refine ⟨rfl, ?_, ?_, ?_, ?_, ?_⟩
        · cases q with
          | nil => exact absurd rfl hqne
          | cons b r =>
            rw [List.getLast?_cons_cons]
            exact q2
        · rw [List.chain'_cons']
          refine ⟨?_, q3⟩
          intro y hy
          rw [q1] at hy
          rw [Option.mem_def, Option.some_inj] at hy
          exact hy ▸ hnsucc
        · rw [List.nodup_cons]
          refine ⟨?_, q4⟩
          intro hcur
          exact (q5 cur hcur) (List.mem_cons_self cur visited)
        · intro x hx
          rcases List.mem_cons.mp hx with h | h
          · rw [h]; exact hcv
          · exact fun hv => (q5 x h) (List.mem_cons_of_mem cur hv)
        · simpa using Nat.succ_le_succ q6
      · rintro ⟨h1, h2, h3, h4, h5, h6⟩
        cases p with
        | nil => cases h1
        | cons a q =>
          have ha : a = cur := by simpa using h1
          subst ha
          cases q with
          | nil =>
            exfalso
            apply hct
            simpa using h2
          | cons n r =>
            have hchain := List.chain'_cons.mp h3
            have hnv : n ∉ visited :=
              h5 n (List.mem_cons_of_mem a (List.mem_cons_self n r))
            have hacur : a ∉ n :: r := (List.nodup_cons.mp h4).1
            have hncv : n ∉ a :: visited := by
              simp only [List.mem_cons]
              rintro (h | h)
              · exact hacur (List.mem_cons.mpr (Or.inl h.symm))
              · exact hnv h
            refine ⟨n, ?_, ?_⟩
            · apply List.mem_filter.mpr
              refine ⟨hchain.1, ?_⟩
              simpa using hnv
            · apply List.mem_map.mpr
              refine ⟨n :: r, ?_, rfl⟩
              apply (ih n (a :: visited) hncv (n :: r)).mpr
              refine ⟨rfl, ?_, hchain.2, (List.nodup_cons.mp h4).2, ?_, ?_⟩
              · rw [← List.getLast?_cons_cons]
                exact h2
              · intro x hx
                simp only [List.mem_cons]
                rintro (h | h)
                · exact hacur (h ▸ hx)
                · exact (h5 x (List.mem_cons_of_mem a hx)) h
              · simpa using h6
  
end GenAI

namespace GenAI

theorem simplePaths_iff {g : List TaskNode} {sId tId : String}
    (hs : sId ∈ ids g) (p : List String) :
    p ∈ simplePaths g sId tId ↔ SPath g sId tId p := by
  unfold simplePaths SPath
  by_cases hst : sId = tId
  · subst hst
    rw [if_pos rfl]
    constructor
    · intro hp
      have hp1 : p = [sId] := by simpa using hp
      subst hp1
      exact ⟨by simp, rfl, rfl, List.nodup_singleton _, List.chain'_singleton _⟩
    · rintro ⟨_, h2, h3, h4, _⟩
      have := nodup_head_last h2 h3 h4
      simp [this]
  · rw [if_neg hst]
    rw [spAux_iff (g.length + 1) sId [] (List.not_mem_nil sId) p]
    constructor
    · rintro ⟨h1, h2, h3, h4, _, _⟩
      refine ⟨?_, h1, h2, h4, h3⟩
      intro h
      rw [h] at h1
      cases h1
    · rintro ⟨hne, h1, h2, h4, h3⟩
      refine ⟨h1, h2, h3, h4, fun x _ => List.not_mem_nil x, ?_⟩
      cases p with
      | nil => exact absurd rfl hne
      | cons a q =>
        have ha : a = sId := by simpa using h1
        have hmemall : ∀ x ∈ a :: q, x ∈ ids g :=
          chain_all_mem q a (by rw [ha]; exact hs) h3
        have hsub : (a :: q).toFinset ⊆ (ids g).toFinset := by
          intro x hx
          rw [List.mem_toFinset] at hx ⊢
          exact hmemall x hx
        have hcard : (a :: q).toFinset.card ≤ (ids g).toFinset.card :=
          Finset.card_le_card hsub
        have h5 : (a :: q).toFinset.card = (a :: q).length :=
          List.toFinset_card_of_nodup h4
        have h6 : (ids g).toFinset.card ≤ (ids g).length :=
          (ids g).toFinset_card_le
        have h7 : (ids g).length = g.length := by simp [ids]
        omega

theorem nodeFor_some {g : List TaskNode} {i : String} (h : i ∈ ids g) :
    ∃ u, nodeFor g i = some u ∧ u.id = i := by
  obtain ⟨t, ht, hti⟩ := mem_ids.mp h
  unfold nodeFor
  cases hf : g.find? (fun t => t.id == i) with
  | none =>
    exfalso
    have hnone := List.find?_eq_none.mp hf t ht
    simp [hti] at hnone
  | some u =>
    have hu := List.find?_some hf
    simp at hu
    exact ⟨u, rfl, hu⟩

theorem pathRecord_fields {g : List TaskNode} (s : SMap) :
    ∀ p : List String, (∀ i ∈ p, i ∈ ids g) →
      (pathRecord g s p).duration
          = (((pathRecord g s p).path).map (·.duration)).sum ∧
      (pathRecord g s p).is_critical
          = ((pathRecord g s p).path).all (fun q => (s q.id).is_critical) := by
  intro p
  induction p with
  | nil => exact fun _ => ⟨rfl, rfl⟩
  | cons i q ih =>
    intro hmem
    obtain ⟨u, hu, hui⟩ := nodeFor_some (hmem i (List.mem_cons_self i q))
    have ihq := ih (fun x hx => hmem x (List.mem_cons_of_mem i hx))
    have hd := ihq.1
    have hc := ihq.2
    simp only [pathRecord, List.filterMap_cons, hu, Option.map_some'] at hd hc ⊢
    constructor
    · simp only [List.sum_cons, List.map_cons]
      rw [hd]
      rfl
    · simp only [List.all_cons]
      rw [hc]
      have hpu : (pTask u).id = i := by rw [← hui]; rfl
      rw [hpu]

end GenAI

namespace GenAI

/-- Counterexample to C6 as stated: the chain A -> B alone, and next to a
longer independent chain X -> Y, produce the identical first returned path
(the bare task list of A, B) although "every task on the path is critical"
holds in the first graph and fails in the second — the returned value
carries no is_critical flag (and no aggregate duration); those fields are
computed on the internal records only and dropped by the final list
comprehension. -/
theorem claim6_counterexample :
    (minimumViablePaths gChain1 (analyzeState gChain1) 5).head?
      = (minimumViablePaths gChain2 (analyzeState gChain2) 5).head? ∧
    (minimumViablePaths gChain1 (analyzeState gChain1) 5).head?
      = some [⟨"A", "A", 2, "r"⟩, ⟨"B", "B", 3, "r"⟩] ∧
    (["A", "B"].all (fun i => (analyzeState gChain1 i).is_critical)) = true ∧
    (["A", "B"].all (fun i => (analyzeState gChain2 i).is_critical)) = false ∧
    (allPathRecs gChain2 (analyzeState gChain2)).map (·.is_critical)
      = [false, true] := by
  refine ⟨by decide, by decide, by decide, by decide, by decide⟩

/-- Claim C6 (corrected): the enumeration collects exactly the
source-to-sink simple paths, each internal record carrying the aggregate
duration (the sum of its task durations) and an is_critical flag that is
true iff every task on the path is critical; the records are sorted
ascending by duration (stably) and the first max_paths are kept — but the
returned value is only the per-path task list, with the aggregate duration
and the flag dropped. -/
theorem claim6_amended :
    ∀ (g : List TaskNode) (k : Nat), TopoOK g = true → (ids g).Nodup →
      ∀ sorted, sorted = List.insertionSort
          (fun x y : PathRec => x.duration ≤ y.duration)
          (allPathRecs g (analyzeState g)) →
        (minimumViablePaths g (analyzeState g) k).length ≤ k ∧
        List.Pairwise (fun x y : PathRec => x.duration ≤ y.duration) sorted ∧
        List.Perm sorted (allPathRecs g (analyzeState g)) ∧
        minimumViablePaths g (analyzeState g) k
          = (sorted.take k).map (·.path) ∧
        (∀ x ∈ sorted.drop k, ∀ y ∈ sorted.take k, y.duration ≤ x.duration) ∧
        (∀ r, r ∈ allPathRecs g (analyzeState g) ↔
          ∃ a ∈ startNodes g, ∃ b ∈ endNodes g, ∃ p, SPath g a.id b.id p ∧
            r = pathRecord g (analyzeState g) p) ∧
        (∀ r ∈ allPathRecs g (analyzeState g),
          r.duration = (r.path.map (·.duration)).sum ∧
          r.is_critical = r.path.all
            (fun q => (analyzeState g q.id).is_critical)) := by
  intro g k _ _ sorted hsorted
  haveI : IsTotal PathRec (fun x y : PathRec => x.duration ≤ y.duration) :=
    ⟨fun a b => le_total a.duration b.duration⟩
  haveI : IsTrans PathRec (fun x y : PathRec => x.duration ≤ y.duration) :=
    ⟨fun _ _ _ hab hbc => le_trans hab hbc⟩
  have hmemchar : ∀ r, r ∈ allPathRecs g (analyzeState g) ↔
      ∃ a ∈ startNodes g, ∃ b ∈ endNodes g, ∃ p, SPath g a.id b.id p ∧
        r = pathRecord g (analyzeState g) p := by
    intro r
    unfold allPathRecs
    rw [List.mem_flatMap]
    constructor
    · rintro ⟨a, ha, hr⟩
      rw [List.mem_flatMap] at hr
      obtain ⟨b, hb, hr2⟩ := hr
      obtain ⟨p, hp, hpr⟩ := List.mem_map.mp hr2
      have hag : a ∈ g := (List.mem_filter.mp ha).1
      have haid : a.id ∈ ids g := mem_ids.mpr ⟨a, hag, rfl⟩
      exact ⟨a, ha, b, hb, p, (simplePaths_iff haid p).mp hp, hpr.symm⟩
    · rintro ⟨a, ha, b, hb, p, hp, hr⟩
      refine ⟨a, ha, ?_⟩
      rw [List.mem_flatMap]
      refine ⟨b, hb, ?_⟩
      apply List.mem_map.mpr
      have hag : a ∈ g := (List.mem_filter.mp ha).1
      have haid : a.id ∈ ids g := mem_ids.mpr ⟨a, hag, rfl⟩
      exact ⟨p, (simplePaths_iff haid p).mpr hp, hr.symm⟩
  have hsorted2 : List.Pairwise (fun x y : PathRec => x.duration ≤ y.duration)
      sorted := by
    rw [hsorted]
    exact List.sorted_insertionSort _ _
  refine ⟨?_, hsorted2, ?_, ?_, ?_, hmemchar, ?_⟩
  · unfold minimumViablePaths
    rw [List.length_map]
    exact le_trans (Nat.le_of_eq (List.length_take _ _)) (min_le_left _ _)
  · rw [hsorted]
    exact List.perm_insertionSort _ _
  · rw [hsorted]
    rfl
  · intro x hx y hy
    have hsplit : sorted = sorted.take k ++ sorted.drop k :=
      (List.take_append_drop k sorted).symm
    rw [hsplit] at hsorted2
    have := (List.pairwise_append.mp hsorted2).2.2
    exact this y hy x hx
  · intro r hr
    obtain ⟨a, ha, b, hb, p, hp, hr2⟩ := hmemchar r |>.mp hr
    have hag : a ∈ g := (List.mem_filter.mp ha).1
    have haid : a.id ∈ ids g := mem_ids.mpr ⟨a, hag, rfl⟩
    have hmemall : ∀ i ∈ p, i ∈ ids g := by
      obtain ⟨hne, h1, _, _, hchain⟩ := hp
      cases p with
      | nil => exact absurd rfl hne
      | cons c q =>
        have hc : c = a.id := by simpa using h1
        exact chain_all_mem q c (by rw [hc]; exact haid) hchain
    rw [hr2]
    exact pathRecord_fields (analyzeState g) p hmemall

/-- Witness for the amended C6 at the scenario graph: the cap holds and the
record of the cheapest path A -> C -> D satisfies the field equations. -/
theorem claim6_witness :
    (minimumViablePaths gABCD (analyzeState gABCD) 5).length ≤ 5 ∧
    (pathRecord gABCD (analyzeState gABCD) ["A", "C", "D"]).duration
      = (((pathRecord gABCD (analyzeState gABCD) ["A", "C", "D"]).path).map
          (·.duration)).sum :=
  ⟨(claim6_amended gABCD 5 (by decide) (by decide) _ rfl).1,
    ((claim6_amended gABCD 5 (by decide) (by decide) _ rfl).2.2.2.2.2.2
      (pathRecord gABCD (analyzeState gABCD) ["A", "C", "D"]) (by decide)).1⟩

end GenAI
